import Mathlib

/-!
Port-map registry of glusterd2 (`pmap/pmap.go`).

A shallow embedding of the port registry and of the operations that work on
it.  Port numbers are Go `int`s and are modelled as `Int`.  The table
`registry.Ports` is a Go array of length `gfPortMax`; every access to it is
bounds-checked, and an access outside `0 .. gfPortMax - 1` is the run-time
panic `index out of range`, modelled as `Fault.indexOutOfRange`.  The embedded
`sync.RWMutex` is a field of the state; acquiring it while it cannot be granted
never returns in a single thread of control and is modelled as
`Fault.deadlock`.  The operating-system probe `isPortFree` is a parameter.
-/

namespace pmap

/-! ## Constants and data model -/

def gfIanaPrivPortsStart : Int := 49152

def gfPortMax : Int := 65535

/-- The states an individual port can be in (`PortType`). -/
inductive PortType where
  | GfPmapPortFree
  | GfPmapPortForeign
  | GfPmapPortLeased
  | GfPmapPortNone
  | GfPmapPortBrickserver
  deriving DecidableEq, Repr

open PortType

/-- The `portStatus` struct.  `Typ` stands for the Go field `Type`; `Xprt` is
an `interface{}` that is only ever compared, `none` being Go's `nil`. -/
structure portStatus where
  Typ : PortType
  Bricknames : List String
  Xprt : Option Nat
  deriving DecidableEq, Repr

/-- The embedded `sync.RWMutex`: whether a writer holds it and how many
readers hold it. -/
structure RWMutex where
  writer : Bool
  readers : Nat
  deriving DecidableEq, Repr

/-- The package variable `registry`. -/
structure Registry where
  mu : RWMutex
  BasePort : Int
  LastAlloc : Int
  Ports : Int → portStatus

/-- The ways in which a call fails to return. -/
inductive Fault where
  | indexOutOfRange
  | deadlock
  deriving DecidableEq, Repr

/-- The zero value of `portStatus`. -/
def portStatus.zero : portStatus :=
  { Typ := GfPmapPortFree, Bricknames := [], Xprt := none }

/-- The zero value of `sync.RWMutex`: nobody holds it. -/
def RWMutex.unlocked : RWMutex := { writer := false, readers := 0 }

/-- The value of the package variable `registry` at program start. -/
def Registry.zero : Registry :=
  { mu := RWMutex.unlocked, BasePort := 0, LastAlloc := 0, Ports := fun _ => portStatus.zero }

/-! ## The lock -/

/-- The call `registry.Lock()`: granted only when nobody holds the mutex. -/
def Registry.Lock (r : Registry) : Except Fault Registry :=
  if r.mu.writer = false ∧ r.mu.readers = 0 then
    .ok { r with mu := { r.mu with writer := true } }
  else .error Fault.deadlock

/-- The call `registry.Unlock()`. -/
def Registry.Unlock (r : Registry) : Registry :=
  { r with mu := { r.mu with writer := false } }

/-- The call `registry.RLock()`: granted unless a writer holds the mutex. -/
def Registry.RLock (r : Registry) : Except Fault Registry :=
  if r.mu.writer = false then
    .ok { r with mu := { r.mu with readers := r.mu.readers + 1 } }
  else .error Fault.deadlock

/-- The call `registry.RUnlock()`. -/
def Registry.RUnlock (r : Registry) : Registry :=
  { r with mu := { r.mu with readers := r.mu.readers - 1 } }

/-! ## The table -/

/-- The length of the array `Ports [gfPortMax]portStatus`. -/
def portsLen : Int := gfPortMax

/-- Reading `registry.Ports[p]`: a bounds-checked array access. -/
def Registry.portAt (r : Registry) (p : Int) : Except Fault portStatus :=
  if 0 ≤ p ∧ p < portsLen then .ok (r.Ports p) else .error Fault.indexOutOfRange

/-- Writing `registry.Ports[p]` (the index has been checked by `portAt`). -/
def Registry.setPort (r : Registry) (p : Int) (e : portStatus) : Registry :=
  { r with Ports := fun q => if q = p then e else r.Ports q }

/-! ## Helpers on strings and slices -/

/-- The test `strings.HasPrefix(s, "/")`. -/
def hasSlashPrefix (s : String) : Bool :=
  match s.data with
  | c :: _ => decide (c = '/')
  | [] => false

/-- The function `stringInSlice`. -/
def stringInSlice (query : String) : List String → Bool
  | [] => false
  | s :: rest => if s = query then true else stringInSlice query rest

/-- The first loop of `deleteFromSlice`: position of the first element equal
to `query`, if there is one. -/
def findPos (query : String) : List String → Option Nat
  | [] => none
  | s :: rest => if s = query then some 0 else (findPos query rest).map (· + 1)

/-- The function `deleteFromSlice`: swap the element found with the last one
and cut the last one off. -/
def deleteFromSlice (list : List String) (query : String) : List String :=
  match findPos query list with
  | some pos =>
    let last := list.getD (list.length - 1) ""
    let atPos := list.getD pos ""
    ((list.set (list.length - 1) atPos).set pos last).take (list.length - 1)
  | none => list

/-! ## Lookups -/

/-- The function `registrySearchByPort`.  The result is the returned string
together with the registry after the deferred `RUnlock`. -/
def registrySearchByPort (r : Registry) (port : Int) : Except Fault (String × Registry) :=
  if port > gfPortMax then .ok ("", r)
  else do
    let r1 ← r.RLock
    let e ← r1.portAt port
    if e.Typ = GfPmapPortBrickserver then
      .ok (" ".intercalate e.Bricknames, r1.RUnlock)
    else .ok ("", r1.RUnlock)

/-- The loop of `registrySearchByXprt`, `for p := LastAlloc; p >= BasePort; p--`.
The second argument is `p`; the first bounds the number of iterations and is
given the length of the range, so that the loop ends by its own condition. -/
def registrySearchByXprtLoop (r : Registry) (xprt : Option Nat) (ptype : PortType) :
    Nat → Int → Except Fault Int
  | 0, _ => .ok 0
  | n + 1, p =>
    if p ≥ r.BasePort then do
      let e ← r.portAt p
      if e.Xprt = none then registrySearchByXprtLoop r xprt ptype n (p - 1)
      else if e.Xprt = xprt ∧ e.Typ = ptype then .ok p
      else registrySearchByXprtLoop r xprt ptype n (p - 1)
    else .ok 0

/-- The function `registrySearchByXprt` (it takes no lock). -/
def registrySearchByXprt (r : Registry) (xprt : Option Nat) (ptype : PortType) :
    Except Fault Int :=
  registrySearchByXprtLoop r xprt ptype (r.LastAlloc + 1 - r.BasePort).toNat r.LastAlloc

/-- The loop of `registrySearch`, `for p := LastAlloc; p >= BasePort; p--`.
The second argument is `p`; the first bounds the number of iterations and is
given the length of the range, so that the loop ends by its own condition. -/
def registrySearchLoop (r : Registry) (brickname : String) (ptype : PortType) :
    Nat → Int → Except Fault Int
  | 0, _ => .ok 0
  | n + 1, p =>
    if p ≥ r.BasePort then do
      let e ← r.portAt p
      if e.Bricknames.length = 0 ∨ e.Typ ≠ ptype then
        registrySearchLoop r brickname ptype n (p - 1)
      else if stringInSlice brickname e.Bricknames then .ok p
      else registrySearchLoop r brickname ptype n (p - 1)
    else .ok 0

/-- The function `registrySearch`: takes the read lock, scans, releases the
read lock. -/
def registrySearch (r : Registry) (brickname : String) (ptype : PortType) :
    Except Fault (Int × Registry) := do
  let r1 ← r.RLock
  let port ← registrySearchLoop r1 brickname ptype
    (r1.LastAlloc + 1 - r1.BasePort).toNat r1.LastAlloc
  .ok (port, r1.RUnlock)

/-! ## Allocation -/

/-- The state test of `registryAlloc`: Free, or Foreign when re-checking. -/
def acceptable (recheckForeign : Bool) (e : portStatus) : Bool :=
  decide (e.Typ = GfPmapPortFree) || (recheckForeign && decide (e.Typ = GfPmapPortForeign))

/-- The loop of `registryAlloc`, `for p := BasePort; p <= gfPortMax; p++`.
The second argument is `p`; the first bounds the number of iterations and is
given the length of the range, so that the loop ends by its own condition.
The result is the local `port` and the registry. -/
def registryAllocLoop (recheckForeign : Bool) (isPortFree : Int → Bool) :
    Nat → Int → Registry → Except Fault (Int × Registry)
  | 0, _, r => .ok (0, r)
  | n + 1, p, r =>
    if p ≤ gfPortMax then do
      let e ← r.portAt p
      if acceptable recheckForeign e then
        if isPortFree p then
          .ok (p, r.setPort p { e with Typ := GfPmapPortLeased })
        else registryAllocLoop recheckForeign isPortFree n (p + 1) r
      else registryAllocLoop recheckForeign isPortFree n (p + 1) r
    else .ok (0, r)

/-- The function `registryAlloc`: takes the lock, scans, raises `LastAlloc`,
releases the lock. -/
def registryAlloc (isPortFree : Int → Bool) (r : Registry) (recheckForeign : Bool) :
    Except Fault (Int × Registry) := do
  let r1 ← r.Lock
  let (port, r2) ← registryAllocLoop recheckForeign isPortFree
    (gfPortMax + 1 - r1.BasePort).toNat r1.BasePort r1
  let r3 := if port > r2.LastAlloc then { r2 with LastAlloc := port } else r2
  .ok (port, r3.Unlock)

/-! ## Binding and release -/

/-- The function `registryBind`. -/
def registryBind (r : Registry) (port : Int) (brickname : String) (ptype : PortType)
    (xprt : Option Nat) : Except Fault Registry :=
  if port > gfPortMax then .ok r
  else do
    let r1 ← r.Lock
    let e ← r1.portAt port
    let r2 := r1.setPort port
      { Typ := ptype, Bricknames := e.Bricknames ++ [brickname], Xprt := xprt }
    let r3 := if r2.LastAlloc < port then { r2 with LastAlloc := port } else r2
    .ok r3.Unlock

/-- The block after the label `REMOVE` of `registryRemove`. -/
def removeAt (r : Registry) (port : Int) (brickname : String) (xprt : Option Nat) :
    Except Fault Registry := do
  let e ← r.portAt port
  if e.Bricknames.length = 1 then
    .ok (r.setPort port { Typ := GfPmapPortFree, Bricknames := [], Xprt := none })
  else
    let names := deleteFromSlice e.Bricknames brickname
    let x := if xprt ≠ none ∧ xprt = e.Xprt then none else e.Xprt
    .ok (r.setPort port { e with Bricknames := names, Xprt := x })

/-- The function `registryRemove`: the lock is taken first and released on return; the
lookup by name is the locking `registrySearch`. -/
def registryRemove (r : Registry) (port : Int) (brickname : String) (ptype : PortType)
    (xprt : Option Nat) : Except Fault Registry := do
  let r1 ← r.Lock
  if port > 0 then
    if port > gfPortMax then .ok r1.Unlock
    else do
      let r2 ← removeAt r1 port brickname xprt
      .ok r2.Unlock
  else do
    let (byName, r2) ←
      if brickname ≠ "" ∧ hasSlashPrefix brickname then registrySearch r1 brickname ptype
      else .ok (0, r1)
    if byName ≠ 0 then do
      let r3 ← removeAt r2 byName brickname xprt
      .ok r3.Unlock
    else do
      let byXprt ← if xprt ≠ none then registrySearchByXprt r2 xprt ptype else .ok 0
      if byXprt ≠ 0 then do
        let r3 ← removeAt r2 byXprt brickname xprt
        .ok r3.Unlock
      else .ok r2.Unlock

/-- The function `AssignPort`. -/
def AssignPort (isPortFree : Int → Bool) (r : Registry) (oldport : Int) (brickpath : String) :
    Except Fault (Int × Registry) :=
  if oldport ≠ 0 then do
    let r1 ← registryRemove r 0 brickpath GfPmapPortBrickserver none
    registryAlloc isPortFree r1 true
  else registryAlloc isPortFree r true

/-! ## Initialisation -/

/-- The loop of `initRegistry`, `for i := BasePort; i <= gfPortMax; i++`.
The second argument is `i`; the first bounds the number of iterations and is
given the length of the range, so that the loop ends by its own condition. -/
def initRegistryLoop (isPortFree : Int → Bool) : Nat → Int → Registry → Except Fault Registry
  | 0, _, r => .ok r
  | n + 1, i, r =>
    if i ≤ gfPortMax then do
      let free := isPortFree i
      let e ← r.portAt i
      let r1 := r.setPort i
        { e with Typ := if free then GfPmapPortFree else GfPmapPortForeign }
      initRegistryLoop isPortFree n (i + 1) r1
    else .ok r

/-- The function `initRegistry`. -/
def initRegistry (isPortFree : Int → Bool) (r : Registry) : Except Fault Registry := do
  let r1 ← r.Lock
  let r2 := { r1 with BasePort := gfIanaPrivPortsStart }
  let r3 ← initRegistryLoop isPortFree (gfPortMax + 1 - r2.BasePort).toNat r2.BasePort r2
  .ok r3.Unlock

/-! ## Notions used to state the properties -/

/-- A port that `registryAlloc` may hand out: its recorded state is Free, or
Foreign when re-checking is on, and the probe reports it free. -/
def Candidate (recheckForeign : Bool) (isPortFree : Int → Bool) (r : Registry) (q : Int) : Prop :=
  ((r.Ports q).Typ = GfPmapPortFree ∨
    (recheckForeign = true ∧ (r.Ports q).Typ = GfPmapPortForeign)) ∧ isPortFree q = true

/-- A registry whose base port is set and whose slots all hold the zero value
(every port recorded Free), with nobody holding the lock. -/
def freshRegistry : Registry :=
  { mu := RWMutex.unlocked, BasePort := gfIanaPrivPortsStart, LastAlloc := 0,
    Ports := fun _ => portStatus.zero }

/-- The registry `freshRegistry` after port 49152 has been leased. -/
def leasedFirstRegistry : Registry :=
  { mu := RWMutex.unlocked, BasePort := gfIanaPrivPortsStart, LastAlloc := 49152,
    Ports := fun q =>
      if q = 49152 then { Typ := GfPmapPortLeased, Bricknames := [], Xprt := none }
      else portStatus.zero }

/-- A run of calls `AssignPort(0, brickpath)` with nothing in between, each
call with its own probe results.  The result lists the ports returned, in
order; the run ends at the first call that does not return. -/
def assignPortRun : List ((Int → Bool) × String) → Registry → List Int
  | [], _ => []
  | (f, brickpath) :: rest, r =>
    match AssignPort f r 0 brickpath with
    | .ok (p, r1) => p :: assignPortRun rest r1
    | .error _ => []

/-- The entry that the block `REMOVE` leaves in place of `e`. -/
def releasedEntry (e : portStatus) (brickname : String) (xprt : Option Nat) : portStatus :=
  if e.Bricknames.length = 1 then portStatus.zero
  else
    { Typ := e.Typ, Bricknames := deleteFromSlice e.Bricknames brickname,
      Xprt := if xprt ≠ none ∧ xprt = e.Xprt then none else e.Xprt }

/-- The entry that `registryBind` leaves in place of `e`. -/
def boundEntry (e : portStatus) (brickname : String) (ptype : PortType) (xprt : Option Nat) :
    portStatus :=
  { Typ := ptype, Bricknames := e.Bricknames ++ [brickname], Xprt := xprt }

/-- The registry as the assignments of `initRegistry` leave it: the base port
is set, nothing has been allocated, every slot is Free or Foreign and has no
owners and no session, and the lock has been released. -/
def Initialized (r : Registry) : Prop :=
  r.mu = RWMutex.unlocked ∧ r.BasePort = gfIanaPrivPortsStart ∧ r.LastAlloc = 0 ∧
  ∀ p, ((r.Ports p).Typ = GfPmapPortFree ∨ (r.Ports p).Typ = GfPmapPortForeign) ∧
    (r.Ports p).Bricknames = [] ∧ (r.Ports p).Xprt = none

/-- The registry states that calls of the allocate, bind and release
operations which return lead to, starting from an initialised registry. -/
inductive Reachable : Registry → Prop where
  | init (r : Registry) : Initialized r → Reachable r
  | alloc (f : Int → Bool) (rf : Bool) (r r1 : Registry) (p : Int) :
      Reachable r → registryAlloc f r rf = .ok (p, r1) → Reachable r1
  | assign (f : Int → Bool) (r r1 : Registry) (oldport p : Int) (brickpath : String) :
      Reachable r → AssignPort f r oldport brickpath = .ok (p, r1) → Reachable r1
  | bind (r r1 : Registry) (port : Int) (name : String) (t : PortType) (x : Option Nat) :
      Reachable r → registryBind r port name t x = .ok r1 → Reachable r1
  | remove (r r1 : Registry) (port : Int) (name : String) (t : PortType) (x : Option Nat) :
      Reachable r → registryRemove r port name t x = .ok r1 → Reachable r1

/-- Port `p` is a port of the table, from `BasePort` on, whose state is `t` and
whose owners contain `name`. -/
def SearchHit (r : Registry) (name : String) (t : PortType) (p : Int) : Prop :=
  r.BasePort ≤ p ∧ p < portsLen ∧ (r.Ports p).Typ = t ∧ name ∈ (r.Ports p).Bricknames

/-- What every reachable state satisfies: the lock is free, the base port is
the start of the private range, the high-water mark is inside the table, and
no port above the high-water mark has an owner. -/
def Settled (r : Registry) : Prop :=
  r.mu = RWMutex.unlocked ∧ r.BasePort = gfIanaPrivPortsStart ∧ r.LastAlloc < portsLen ∧
  ∀ p, (r.Ports p).Bricknames ≠ [] → p ≤ r.LastAlloc

/-- The registry `freshRegistry` after `registryBind(100, "/bricks/b1",
GfPmapPortBrickserver, nil)`: a port below `BasePort` has an owner. -/
def lowBoundRegistry : Registry :=
  { mu := RWMutex.unlocked, BasePort := gfIanaPrivPortsStart, LastAlloc := 100,
    Ports := fun q =>
      if q = 100 then
        { Typ := GfPmapPortBrickserver, Bricknames := ["/bricks/b1"], Xprt := none }
      else portStatus.zero }

/-- The registry `freshRegistry` after `"/bricks/b1"` has been bound as a brick
server to port 49152 and then to port 49160. -/
def twiceBoundRegistry : Registry :=
  { mu := RWMutex.unlocked, BasePort := gfIanaPrivPortsStart, LastAlloc := 49160,
    Ports := fun q =>
      if q = 49160 then
        { Typ := GfPmapPortBrickserver, Bricknames := ["/bricks/b1"], Xprt := some 2 }
      else if q = 49152 then
        { Typ := GfPmapPortBrickserver, Bricknames := ["/bricks/b1"], Xprt := some 1 }
      else portStatus.zero }

/-- The registry `freshRegistry` after `"/bricks/b1"` and then `"/bricks/b2"`
have been bound as brick servers to port 49152 (two bricks multiplexed on one
port). -/
def muxRegistry : Registry :=
  { mu := RWMutex.unlocked, BasePort := gfIanaPrivPortsStart, LastAlloc := 49152,
    Ports := fun q =>
      if q = 49152 then
        { Typ := GfPmapPortBrickserver, Bricknames := ["/bricks/b1", "/bricks/b2"],
          Xprt := some 2 }
      else portStatus.zero }

/-- One returning call of an operation that changes the registry: an
allocation (`registryAlloc` or `AssignPort`), a bind whose type satisfies
`allowed`, or a release. -/
inductive Mutation (allowed : PortType → Prop) : Registry → Registry → Prop where
  | alloc (f : Int → Bool) (rf : Bool) (r r1 : Registry) (p : Int) :
      registryAlloc f r rf = .ok (p, r1) → Mutation allowed r r1
  | assign (f : Int → Bool) (r r1 : Registry) (oldport p : Int) (brickpath : String) :
      AssignPort f r oldport brickpath = .ok (p, r1) → Mutation allowed r r1
  | bind (r r1 : Registry) (port : Int) (name : String) (t : PortType) (x : Option Nat) :
      allowed t → registryBind r port name t x = .ok r1 → Mutation allowed r r1
  | remove (r r1 : Registry) (port : Int) (name : String) (t : PortType) (x : Option Nat) :
      registryRemove r port name t x = .ok r1 → Mutation allowed r r1

/-- One returning call of a lookup, with the registry before and after it. -/
inductive Lookup : Registry → Registry → Prop where
  | byPort (r r1 : Registry) (port : Int) (s : String) :
      registrySearchByPort r port = .ok (s, r1) → Lookup r r1
  | byName (r r1 : Registry) (name : String) (t : PortType) (port : Int) :
      registrySearch r name t = .ok (port, r1) → Lookup r r1
  | byXprt (r : Registry) (x : Option Nat) (t : PortType) (port : Int) :
      registrySearchByXprt r x t = .ok port → Lookup r r

/-- The states reached from an initialised registry by allocations, releases
and binds whose type satisfies `allowed`. -/
inductive ReachableWith (allowed : PortType → Prop) : Registry → Prop where
  | init (r : Registry) : Initialized r → ReachableWith allowed r
  | step (r r1 : Registry) :
      ReachableWith allowed r → Mutation allowed r r1 → ReachableWith allowed r1

/-- Every entry whose state is Free has no owners and no session. -/
def FreeClean (r : Registry) : Prop :=
  ∀ p, (r.Ports p).Typ = GfPmapPortFree →
    (r.Ports p).Bricknames = [] ∧ (r.Ports p).Xprt = none

/-- The types that mark a port as in use: Leased and Brickserver. -/
def InUseType (t : PortType) : Prop :=
  t = GfPmapPortLeased ∨ t = GfPmapPortBrickserver

/-- Every entry that has an owner is in state Leased or Brickserver. -/
def OwnedInUse (r : Registry) : Prop :=
  ∀ p, (r.Ports p).Bricknames ≠ [] → InUseType (r.Ports p).Typ

/-- The registry `freshRegistry` after `registryBind(49152, "/bricks/b1",
GfPmapPortFree, 1)`: a bind that names the type Free. -/
def freeBoundRegistry : Registry :=
  { mu := RWMutex.unlocked, BasePort := gfIanaPrivPortsStart, LastAlloc := 49152,
    Ports := fun q =>
      if q = 49152 then
        { Typ := GfPmapPortFree, Bricknames := ["/bricks/b1"], Xprt := some 1 }
      else portStatus.zero }

/-- The registry `freshRegistry` after `registryBind(49152, "/bricks/b1",
GfPmapPortNone, nil)`. -/
def noneBoundRegistry : Registry :=
  { mu := RWMutex.unlocked, BasePort := gfIanaPrivPortsStart, LastAlloc := 49152,
    Ports := fun q =>
      if q = 49152 then
        { Typ := GfPmapPortNone, Bricknames := ["/bricks/b1"], Xprt := none }
      else portStatus.zero }

/-- Every entry in state Brickserver has an owner. -/
def BrickOwned (r : Registry) : Prop :=
  ∀ p, (r.Ports p).Typ = GfPmapPortBrickserver → (r.Ports p).Bricknames ≠ []

/-! ## Basic facts about the lock and the table -/

theorem Lock_unlocked (r : Registry) (h : r.mu = RWMutex.unlocked) :
    r.Lock = .ok { r with mu := { writer := true, readers := 0 } } := by
  simp [Registry.Lock, h, RWMutex.unlocked]

theorem Lock_ok_iff (r r1 : Registry) :
    r.Lock = .ok r1 ↔
      r.mu = RWMutex.unlocked ∧ r1 = { r with mu := { writer := true, readers := 0 } } := by
  obtain ⟨⟨w, n⟩, b, l, ps⟩ := r
  simp only [Registry.Lock, RWMutex.unlocked]
  constructor
  · intro h
    split at h
    · rename_i hc
      obtain ⟨hw, hn⟩ := hc
      subst hw; subst hn
      injection h with h
      exact ⟨rfl, h.symm⟩
    · cases h
  · rintro ⟨hm, rfl⟩
    injection hm with hw hn
    subst hw; subst hn
    simp

theorem portAt_ok (r : Registry) (p : Int) (h0 : 0 ≤ p) (h1 : p < portsLen) :
    r.portAt p = .ok (r.Ports p) := by
  simp [Registry.portAt, h0, h1]

theorem portAt_error (r : Registry) (p : Int) (h : ¬ (0 ≤ p ∧ p < portsLen)) :
    r.portAt p = .error Fault.indexOutOfRange := by
  simp only [Registry.portAt, if_neg h]

theorem portAt_ok_iff (r : Registry) (p : Int) (e : portStatus) :
    r.portAt p = .ok e ↔ (0 ≤ p ∧ p < portsLen) ∧ e = r.Ports p := by
  unfold Registry.portAt
  split
  · rename_i h
    constructor
    · intro h1
      injection h1 with h1
      exact ⟨h, h1.symm⟩
    · rintro ⟨_, rfl⟩
      rfl
  · rename_i h
    constructor
    · intro h1
      cases h1
    · rintro ⟨h1, _⟩
      exact absurd h1 h

/-! ## The allocation scan -/

/-- What a completed scan of `registryAlloc` has done: either it found nothing
and changed nothing, or it leased the first acceptable port that probed free. -/
theorem registryAllocLoop_ok (rf : Bool) (f : Int → Bool) :
    ∀ (n : Nat) (p : Int) (r r1 : Registry) (q : Int),
      registryAllocLoop rf f n p r = .ok (q, r1) →
      (q = 0 ∧ r1 = r) ∨
      (p ≤ q ∧ q < p + n ∧ 0 ≤ q ∧ q < portsLen ∧
        acceptable rf (r.Ports q) = true ∧ f q = true ∧
        (∀ k, p ≤ k → k < q → ¬ (acceptable rf (r.Ports k) = true ∧ f k = true)) ∧
        r1 = r.setPort q { Typ := GfPmapPortLeased, Bricknames := (r.Ports q).Bricknames,
                           Xprt := (r.Ports q).Xprt }) := by
  intro n
  induction n with
  | zero =>
    intro p r r1 q h
    simp only [registryAllocLoop] at h
    injection h with h
    injection h with h1 h2
    exact Or.inl ⟨h1.symm, h2.symm⟩
  | succ n ih =>
    intro p r r1 q h
    by_cases hcond : p ≤ gfPortMax
    swap
    · simp only [registryAllocLoop, if_neg hcond] at h
      injection h with h
      injection h with h1 h2
      exact Or.inl ⟨h1.symm, h2.symm⟩
    by_cases hb : 0 ≤ p ∧ p < portsLen
    · simp only [registryAllocLoop, if_pos hcond, portAt_ok r p hb.1 hb.2, bind,
        Except.bind] at h
      by_cases hacc : acceptable rf (r.Ports p) = true ∧ f p = true
      · rw [if_pos hacc.1, if_pos hacc.2] at h
        injection h with h
        injection h with h1 h2
        subst h1
        refine Or.inr ⟨le_refl _, by push_cast; omega, hb.1, hb.2, hacc.1, hacc.2, ?_, h2.symm⟩
        intro k hk1 hk2
        omega
      · have hrest : registryAllocLoop rf f n (p + 1) r = .ok (q, r1) := by
          by_cases ha : acceptable rf (r.Ports p) = true
          · have hf : f p = false := by
              cases hfp : f p
              · rfl
              · exact absurd ⟨ha, hfp⟩ hacc
            simpa [ha, hf] using h
          · simpa [ha] using h
        rcases ih (p + 1) r r1 q hrest with h0 | ⟨h1, h2, h3, h4, h5, h6, h7, h8⟩
        · exact Or.inl h0
        · refine Or.inr ⟨by omega, by push_cast; omega, h3, h4, h5, h6, ?_, h8⟩
          intro k hk1 hk2
          by_cases hkp : k = p
          · subst hkp
            exact hacc
          · exact h7 k (by omega) hk2
    · simp only [registryAllocLoop, if_pos hcond, portAt_error r p hb, bind,
        Except.bind] at h
      cases h

theorem acceptable_iff (rf : Bool) (e : portStatus) :
    acceptable rf e = true ↔
      (e.Typ = GfPmapPortFree ∨ (rf = true ∧ e.Typ = GfPmapPortForeign)) := by
  simp [acceptable]

/-- What a completed `registryAlloc` has done to the registry. -/
theorem registryAlloc_ok (f : Int → Bool) (r r1 : Registry) (rf : Bool) (p : Int)
    (h : registryAlloc f r rf = .ok (p, r1)) :
    r.mu = RWMutex.unlocked ∧ r1.mu = RWMutex.unlocked ∧ r1.BasePort = r.BasePort ∧
    r1.LastAlloc = max r.LastAlloc p ∧
    ((p = 0 ∧ r1.Ports = r.Ports) ∨
      (r.BasePort ≤ p ∧ 0 ≤ p ∧ p < portsLen ∧ Candidate rf f r p ∧
        (∀ k, r.BasePort ≤ k → k < p → ¬ Candidate rf f r k) ∧
        r1.Ports = fun q => if q = p then
          { Typ := GfPmapPortLeased, Bricknames := (r.Ports p).Bricknames,
            Xprt := (r.Ports p).Xprt } else r.Ports q)) := by
  unfold registryAlloc at h
  cases hl : r.Lock with
  | error e => simp [hl, bind, Except.bind] at h
  | ok r0 =>
    obtain ⟨hmu, hr0⟩ := (Lock_ok_iff r r0).1 hl
    simp only [hl, bind, Except.bind] at h
    cases hloop : registryAllocLoop rf f (gfPortMax + 1 - r0.BasePort).toNat r0.BasePort r0 with
    | error e => simp [hloop] at h
    | ok res =>
      obtain ⟨q, r2⟩ := res
      simp only [hloop] at h
      injection h with h
      injection h with hq hr1
      subst hq
      have hbase : r0.BasePort = r.BasePort := by rw [hr0]
      have hports : r0.Ports = r.Ports := by rw [hr0]
      have hlast : r0.LastAlloc = r.LastAlloc := by rw [hr0]
      have key := registryAllocLoop_ok rf f _ _ _ _ _ hloop
      have hr2 : r2.mu = { writer := true, readers := 0 } ∧ r2.BasePort = r.BasePort ∧
          r2.LastAlloc = r.LastAlloc := by
        rcases key with ⟨_, h2⟩ | ⟨_, _, _, _, _, _, _, h2⟩
        · rw [h2, hr0]; exact ⟨rfl, rfl, rfl⟩
        · rw [h2, hr0]; exact ⟨rfl, rfl, rfl⟩
      obtain ⟨hm2, hb2, hl2⟩ := hr2
      have hfin : r1.mu = RWMutex.unlocked ∧ r1.BasePort = r.BasePort ∧
          r1.LastAlloc = max r.LastAlloc q ∧ r1.Ports = r2.Ports := by
        rw [← hr1]
        by_cases hgt : q > r2.LastAlloc
        · rw [if_pos hgt]
          refine ⟨?_, hb2, ?_, rfl⟩
          · simp [Registry.Unlock, RWMutex.unlocked, hm2]
          · simp only [Registry.Unlock]
            rw [hl2] at hgt
            exact (max_eq_right (le_of_lt hgt)).symm
        · rw [if_neg hgt]
          refine ⟨?_, hb2, ?_, rfl⟩
          · simp [Registry.Unlock, RWMutex.unlocked, hm2]
          · simp only [Registry.Unlock]
            rw [hl2]
            rw [hl2] at hgt
            exact (max_eq_left (not_lt.1 hgt)).symm
      obtain ⟨hf1, hf2, hf3, hf4⟩ := hfin
      refine ⟨hmu, hf1, hf2, hf3, ?_⟩
      rcases key with ⟨h1, h2⟩ | ⟨h1, _, h3, h4, h5, h6, h7, h8⟩
      · left
        exact ⟨h1, by rw [hf4, h2, hports]⟩
      · right
        rw [hbase] at h1 h7
        rw [hports] at h5 h7
        refine ⟨h1, h3, h4, ⟨(acceptable_iff _ _).1 h5, h6⟩, ?_, ?_⟩
        · intro k hk1 hk2 hc
          exact h7 k hk1 hk2 ⟨(acceptable_iff _ _).2 hc.1, hc.2⟩
        · rw [hf4, h8, ← hports]
          rfl

/-! ## C1: first fit -/

/-- C1: whenever `registryAlloc` returns a non-zero port `p`, that port is at
least `BasePort`, its recorded state was Free (or Foreign, with re-checking on)
and the probe reported it free, no lower port from `BasePort` on had both
properties, and after the call the state of `p` is Leased. -/
theorem registryAlloc_first_fit (f : Int → Bool) (r r1 : Registry) (rf : Bool) (p : Int)
    (h : registryAlloc f r rf = .ok (p, r1)) (hp : p ≠ 0) :
    r.BasePort ≤ p ∧ Candidate rf f r p ∧
    (∀ q, r.BasePort ≤ q → q < p → ¬ Candidate rf f r q) ∧
    (r1.Ports p).Typ = GfPmapPortLeased := by
  obtain ⟨_, _, _, _, hcase⟩ := registryAlloc_ok f r r1 rf p h
  rcases hcase with ⟨h0, _⟩ | ⟨h1, _, _, h4, h5, h6⟩
  · exact absurd h0 hp
  · refine ⟨h1, h4, h5, ?_⟩
    rw [h6]
    simp

theorem registryAlloc_fresh :
    registryAlloc (fun _ => true) freshRegistry true = .ok (49152, leasedFirstRegistry) := by
  rfl

theorem registryAlloc_first_fit_witness :
    freshRegistry.BasePort ≤ 49152 ∧ Candidate true (fun _ => true) freshRegistry 49152 ∧
    (∀ q, freshRegistry.BasePort ≤ q → q < 49152 →
      ¬ Candidate true (fun _ => true) freshRegistry q) ∧
    (leasedFirstRegistry.Ports 49152).Typ = GfPmapPortLeased :=
  registryAlloc_first_fit (fun _ => true) freshRegistry leasedFirstRegistry true 49152
    (by rfl) (by decide)

/-! ## C2: exhaustion -/

/-- A scan of `registryAlloc` that meets no port it can lease runs up to
`p = gfPortMax`, which lies outside the table. -/
theorem registryAllocLoop_exhausted (rf : Bool) (f : Int → Bool) (r : Registry) :
    ∀ (n : Nat) (p : Int), 0 ≤ p → p + n = gfPortMax + 1 → 1 ≤ n →
      (∀ q, p ≤ q → q < portsLen → ¬ (acceptable rf (r.Ports q) = true ∧ f q = true)) →
      registryAllocLoop rf f n p r = .error Fault.indexOutOfRange := by
  intro n
  induction n with
  | zero => intro p _ _ h1; omega
  | succ n ih =>
    intro p h0 hsum _ hno
    have hcond : p ≤ gfPortMax := by
      push_cast at hsum
      omega
    by_cases hb : p < portsLen
    · have hn : 1 ≤ n := by
        simp only [portsLen, gfPortMax] at hb hsum
        push_cast at hsum
        omega
      have hrest := ih (p + 1) (by omega) (by push_cast at hsum; omega) hn
        (fun q hq1 hq2 => hno q (by omega) hq2)
      have hnp := hno p (le_refl _) hb
      simp only [registryAllocLoop, if_pos hcond, portAt_ok r p h0 hb, bind, Except.bind]
      by_cases ha : acceptable rf (r.Ports p) = true
      · have hf : f p = false := by
          cases hfp : f p
          · rfl
          · exact absurd ⟨ha, hfp⟩ hnp
        simpa [ha, hf] using hrest
      · simpa [ha] using hrest
    · simp only [registryAllocLoop, if_pos hcond, portAt_error r p (fun h => hb h.2), bind,
        Except.bind]

/-- C2 (what the code does): when the lock is free, `BasePort` lies in
`[0, gfPortMax]` and no port of `[BasePort, gfPortMax]` is both acceptable and
reported free, `registryAlloc` does not return `0`: its scan reaches
`p = gfPortMax`, indexes `Ports[gfPortMax]` in a table of length `gfPortMax`,
and stops with an index error. -/
theorem registryAlloc_exhausted_index_error (f : Int → Bool) (r : Registry) (rf : Bool)
    (hmu : r.mu = RWMutex.unlocked) (h0 : 0 ≤ r.BasePort) (h1 : r.BasePort ≤ gfPortMax)
    (hno : ∀ q, r.BasePort ≤ q → q ≤ gfPortMax → ¬ Candidate rf f r q) :
    registryAlloc f r rf = .error Fault.indexOutOfRange := by
  unfold registryAlloc
  rw [Lock_unlocked r hmu]
  simp only [bind, Except.bind]
  rw [registryAllocLoop_exhausted rf f _ _ _ h0]
  · simp only [gfPortMax] at h1 ⊢
    rw [Int.toNat_of_nonneg (by omega)]
    omega
  · simp only [gfPortMax] at h1 ⊢
    omega
  · intro q hq1 hq2 hc
    refine hno q hq1 ?_ ⟨(acceptable_iff _ _).1 hc.1, hc.2⟩
    simp only [portsLen] at hq2
    omega

theorem registryAlloc_exhausted_index_error_witness :
    registryAlloc (fun _ => false) freshRegistry true = .error Fault.indexOutOfRange :=
  registryAlloc_exhausted_index_error (fun _ => false) freshRegistry true rfl
    (by decide) (by decide) (fun _ _ _ hc => Bool.noConfusion hc.2)

/-! ## C3: a run of allocations -/

theorem AssignPort_zero (f : Int → Bool) (r : Registry) (brickpath : String) :
    AssignPort f r 0 brickpath = registryAlloc f r true := by
  simp [AssignPort]

/-- A port returned later in a run is in the managed range and is not Leased
at the start of the run. -/
theorem assignPortRun_mem :
    ∀ (calls : List ((Int → Bool) × String)) (r : Registry) (p : Int),
      p ∈ assignPortRun calls r → p ≠ 0 →
      (r.Ports p).Typ ≠ GfPmapPortLeased ∧ r.BasePort ≤ p ∧ p < portsLen := by
  intro calls
  induction calls with
  | nil => intro r p h; simp [assignPortRun] at h
  | cons c rest ih =>
    intro r p h hp
    obtain ⟨f, brickpath⟩ := c
    simp only [assignPortRun, AssignPort_zero] at h
    cases hres : registryAlloc f r true with
    | error e => simp [hres] at h
    | ok res =>
      obtain ⟨q, r1⟩ := res
      simp only [hres, List.mem_cons] at h
      obtain ⟨_, _, hbase, _, hcase⟩ := registryAlloc_ok f r r1 true q hres
      rcases h with rfl | hin
      · rcases hcase with ⟨h0, _⟩ | ⟨h1, _, h3, h4, _, _⟩
        · exact absurd h0 hp
        · refine ⟨?_, h1, h3⟩
          rcases h4.1 with hfree | ⟨_, hforeign⟩
          · rw [hfree]; decide
          · rw [hforeign]; decide
      · obtain ⟨i1, i2, i3⟩ := ih r1 p hin hp
        rw [hbase] at i2
        refine ⟨?_, i2, i3⟩
        rcases hcase with ⟨_, hsame⟩ | ⟨_, _, _, _, _, hports⟩
        · rw [← hsame]; exact i1
        · rw [hports] at i1
          by_cases hpq : p = q
          · simp [hpq] at i1
          · simpa [hpq] using i1

/-- C3: in a run of calls `AssignPort(0, _)` with no bind or release in between,
from any registry state and whatever the probes report, the non-zero ports
returned are pairwise distinct and each lies in `[BasePort, gfPortMax]`. -/
theorem assignPortRun_distinct_in_range (calls : List ((Int → Bool) × String)) (r : Registry) :
    ((assignPortRun calls r).filter (fun p => decide (p ≠ 0))).Nodup ∧
    ∀ p ∈ assignPortRun calls r, p ≠ 0 → r.BasePort ≤ p ∧ p ≤ gfPortMax := by
  constructor
  · induction calls generalizing r with
    | nil => simp [assignPortRun]
    | cons c rest ih =>
      obtain ⟨f, brickpath⟩ := c
      simp only [assignPortRun, AssignPort_zero]
      cases hres : registryAlloc f r true with
      | error e => simp
      | ok res =>
        obtain ⟨q, r1⟩ := res
        simp only []
        by_cases hq : q = 0
        · simpa [List.filter_cons, hq] using ih r1
        · rw [List.filter_cons_of_pos (by simpa using hq)]
          refine List.nodup_cons.2 ⟨?_, ih r1⟩
          intro hmem
          have hin : q ∈ assignPortRun rest r1 := (List.mem_filter.1 hmem).1
          have hnl := (assignPortRun_mem rest r1 q hin hq).1
          obtain ⟨_, _, _, _, hcase⟩ := registryAlloc_ok f r r1 true q hres
          rcases hcase with ⟨h0, _⟩ | ⟨_, _, _, _, _, hports⟩
          · exact hq h0
          · apply hnl
            rw [hports]
            simp
  · intro p hin hp
    obtain ⟨_, h2, h3⟩ := assignPortRun_mem calls r p hin hp
    refine ⟨h2, ?_⟩
    simp only [portsLen] at h3
    omega

/-- A run of three allocations on a registry with every port free. -/
theorem assignPortRun_fresh :
    assignPortRun [(fun _ => true, "/bricks/b1"), (fun _ => true, "/bricks/b2"),
      (fun q => decide (q ≠ 49154), "/bricks/b3")] freshRegistry = [49152, 49153, 49155] := by
  rfl

/-! ## Binding and release at an explicit port -/

/-- The effect of `registryBind` on a port inside the table. -/
theorem registryBind_inTable (r : Registry) (port : Int) (name : String) (t : PortType)
    (x : Option Nat) (hmu : r.mu = RWMutex.unlocked) (h0 : 0 ≤ port) (h1 : port < portsLen) :
    registryBind r port name t x = .ok
      { mu := RWMutex.unlocked, BasePort := r.BasePort,
        LastAlloc := if r.LastAlloc < port then port else r.LastAlloc,
        Ports := fun q => if q = port then boundEntry (r.Ports port) name t x else r.Ports q } := by
  have hle : ¬ port > gfPortMax := by
    simp only [portsLen] at h1
    omega
  unfold registryBind
  rw [if_neg hle, Lock_unlocked r hmu]
  simp only [bind, Except.bind]
  rw [portAt_ok _ port h0 h1]
  simp only [Registry.setPort, Registry.Unlock, boundEntry, RWMutex.unlocked]
  split <;> rfl

theorem removeAt_inTable (r : Registry) (port : Int) (name : String) (x : Option Nat)
    (h0 : 0 ≤ port) (h1 : port < portsLen) :
    removeAt r port name x = .ok (r.setPort port (releasedEntry (r.Ports port) name x)) := by
  unfold removeAt
  rw [portAt_ok r port h0 h1]
  simp only [bind, Except.bind, releasedEntry, portStatus.zero]
  split <;> rfl

/-- The effect of `registryRemove` with an explicit port inside the table. -/
theorem registryRemove_explicit (r : Registry) (port : Int) (name : String) (t : PortType)
    (x : Option Nat) (hmu : r.mu = RWMutex.unlocked) (h0 : 0 < port) (h1 : port < portsLen) :
    registryRemove r port name t x = .ok
      { mu := RWMutex.unlocked, BasePort := r.BasePort, LastAlloc := r.LastAlloc,
        Ports := fun q =>
          if q = port then releasedEntry (r.Ports port) name x else r.Ports q } := by
  have hle : ¬ port > gfPortMax := by
    simp only [portsLen] at h1
    omega
  unfold registryRemove
  rw [Lock_unlocked r hmu]
  simp only [bind, Except.bind]
  rw [if_pos h0, if_neg hle, removeAt_inTable _ port name x (le_of_lt h0) h1]
  rfl

/-! ## C4: bind, then release -/

/-- C4: for a port `p` just returned by a successful allocation, with no
owners, `registryBind(p, name, type, session)` followed by the release of `p`
under the same name returns, and leaves the entry of `p` with state Free, no
owners and no session, whatever type and session the release is given. -/
theorem bind_then_remove_frees (f : Int → Bool) (r r1 : Registry) (rf : Bool) (p : Int)
    (name : String) (t t2 : PortType) (x x2 : Option Nat)
    (halloc : registryAlloc f r rf = .ok (p, r1)) (hp : p ≠ 0)
    (hown : (r1.Ports p).Bricknames = []) :
    ∃ r2 r3, registryBind r1 p name t x = .ok r2 ∧
      registryRemove r2 p name t2 x2 = .ok r3 ∧
      (r3.Ports p).Typ = GfPmapPortFree ∧ (r3.Ports p).Bricknames = [] ∧
      (r3.Ports p).Xprt = none := by
  obtain ⟨_, hmu1, _, _, hcase⟩ := registryAlloc_ok f r r1 rf p halloc
  rcases hcase with ⟨h0, _⟩ | ⟨_, hp0, hp1, _, _, _⟩
  · exact absurd h0 hp
  · have hpos : 0 < p := lt_of_le_of_ne hp0 (Ne.symm hp)
    refine ⟨_, _, registryBind_inTable r1 p name t x hmu1 hp0 hp1,
      registryRemove_explicit _ p name t2 x2 rfl hpos hp1, ?_⟩
    simp [releasedEntry, boundEntry, hown, portStatus.zero]

theorem bind_then_remove_frees_witness :
    ∃ r2 r3, registryBind leasedFirstRegistry 49152 "/bricks/b1" GfPmapPortBrickserver
        (some 7) = .ok r2 ∧
      registryRemove r2 49152 "/bricks/b1" GfPmapPortBrickserver none = .ok r3 ∧
      (r3.Ports 49152).Typ = GfPmapPortFree ∧ (r3.Ports 49152).Bricknames = [] ∧
      (r3.Ports 49152).Xprt = none :=
  bind_then_remove_frees (fun _ => true) freshRegistry leasedFirstRegistry true 49152
    "/bricks/b1" GfPmapPortBrickserver GfPmapPortBrickserver (some 7) none
    (by rfl) (by decide) (by rfl)

/-! ## C5: two names on one port -/

theorem deleteFromSlice_pair (a b : String) : deleteFromSlice [a, b] a = [b] := by
  simp [deleteFromSlice, findPos]

/-- C5 fails at port 0, which `registryRemove` reads as "no port given": with
names that are not paths and no session the release resolves nothing, and both
owners stay. -/
theorem two_names_port_zero_counterexample :
    ∃ r1 r2 r3,
      (0 : Int) < portsLen ∧ (freshRegistry.Ports 0).Bricknames = [] ∧
      registryBind freshRegistry 0 "tierd" GfPmapPortBrickserver none = .ok r1 ∧
      registryBind r1 0 "snapd" GfPmapPortBrickserver none = .ok r2 ∧
      registryRemove r2 0 "tierd" GfPmapPortBrickserver none = .ok r3 ∧
      (r3.Ports 0).Bricknames = ["tierd", "snapd"] ∧
      (r3.Ports 0).Bricknames ≠ ["snapd"] :=
  ⟨_, _, _, by decide, rfl, rfl, rfl, rfl, rfl, by decide⟩

/-- C5 (amended): for every port `p` with `0 < p` inside the table whose entry
has no owners, and every two names `a` and `b`, the calls
`registryBind(p, a, t, s1)`, `registryBind(p, b, t, s2)` and
`registryRemove(p, a, t, x)` all return, and afterwards the state of `p` is
still `t` and its owners are exactly `[b]`. -/
theorem two_names_release_one (r : Registry) (p : Int) (a b : String) (t : PortType)
    (s1 s2 x : Option Nat) (hmu : r.mu = RWMutex.unlocked) (h0 : 0 < p) (h1 : p < portsLen)
    (hown : (r.Ports p).Bricknames = []) :
    ∃ r1 r2 r3, registryBind r p a t s1 = .ok r1 ∧ registryBind r1 p b t s2 = .ok r2 ∧
      registryRemove r2 p a t x = .ok r3 ∧
      (r3.Ports p).Typ = t ∧ (r3.Ports p).Bricknames = [b] := by
  refine ⟨_, _, _, registryBind_inTable r p a t s1 hmu (le_of_lt h0) h1,
    registryBind_inTable _ p b t s2 rfl (le_of_lt h0) h1,
    registryRemove_explicit _ p a t x rfl h0 h1, ?_⟩
  simp [releasedEntry, boundEntry, hown, deleteFromSlice_pair]

theorem two_names_release_one_witness :
    ∃ r1 r2 r3,
      registryBind freshRegistry 49152 "/bricks/b1" GfPmapPortBrickserver (some 1) = .ok r1 ∧
      registryBind r1 49152 "/bricks/b2" GfPmapPortBrickserver (some 2) = .ok r2 ∧
      registryRemove r2 49152 "/bricks/b1" GfPmapPortBrickserver (some 1) = .ok r3 ∧
      (r3.Ports 49152).Typ = GfPmapPortBrickserver ∧
      (r3.Ports 49152).Bricknames = ["/bricks/b2"] :=
  two_names_release_one freshRegistry 49152 "/bricks/b1" "/bricks/b2" GfPmapPortBrickserver
    (some 1) (some 2) (some 1) rfl (by decide) (by decide) rfl

/-! ## What a returning bind or release has done -/

theorem registryBind_ok (r r1 : Registry) (port : Int) (name : String) (t : PortType)
    (x : Option Nat) (hmu : r.mu = RWMutex.unlocked)
    (h : registryBind r port name t x = .ok r1) :
    (port > gfPortMax ∧ r1 = r) ∨
    (0 ≤ port ∧ port < portsLen ∧ r1 =
      { mu := RWMutex.unlocked, BasePort := r.BasePort,
        LastAlloc := if r.LastAlloc < port then port else r.LastAlloc,
        Ports := fun q => if q = port then boundEntry (r.Ports port) name t x else r.Ports q }) := by
  by_cases hgt : port > gfPortMax
  · left
    unfold registryBind at h
    rw [if_pos hgt] at h
    injection h with h
    exact ⟨hgt, h.symm⟩
  · right
    by_cases hb : 0 ≤ port ∧ port < portsLen
    · rw [registryBind_inTable r port name t x hmu hb.1 hb.2] at h
      injection h with h
      exact ⟨hb.1, hb.2, h.symm⟩
    · unfold registryBind at h
      rw [if_neg hgt, Lock_unlocked r hmu] at h
      simp only [bind, Except.bind] at h
      rw [portAt_error _ port hb] at h
      cases h

theorem removeAt_ok (r r1 : Registry) (port : Int) (name : String) (x : Option Nat)
    (h : removeAt r port name x = .ok r1) :
    0 ≤ port ∧ port < portsLen ∧
      r1 = r.setPort port (releasedEntry (r.Ports port) name x) := by
  by_cases hb : 0 ≤ port ∧ port < portsLen
  · rw [removeAt_inTable r port name x hb.1 hb.2] at h
    injection h with h
    exact ⟨hb.1, hb.2, h.symm⟩
  · unfold removeAt at h
    rw [portAt_error _ port hb] at h
    simp only [bind, Except.bind] at h
    cases h

/-- A lookup by name made while the write lock is held does not return. -/
theorem registrySearch_wlocked (r : Registry) (name : String) (t : PortType)
    (h : r.mu.writer = true) : registrySearch r name t = .error Fault.deadlock := by
  simp [registrySearch, Registry.RLock, h, bind, Except.bind]

/-- A returning `registryRemove` has either changed nothing or replaced the
entry of one port of the table by its released form. -/
theorem registryRemove_ok (r r1 : Registry) (port : Int) (name : String) (t : PortType)
    (x : Option Nat) (hmu : r.mu = RWMutex.unlocked)
    (h : registryRemove r port name t x = .ok r1) :
    r1 = r ∨
    ∃ q, 0 ≤ q ∧ q < portsLen ∧ r1 =
      { mu := RWMutex.unlocked, BasePort := r.BasePort, LastAlloc := r.LastAlloc,
        Ports := fun k => if k = q then releasedEntry (r.Ports q) name x else r.Ports k } := by
  have hsame : ({ r with mu := { writer := true, readers := 0 } } : Registry).Unlock = r := by
    obtain ⟨m, b, l, ps⟩ := r
    simp only at hmu
    subst hmu
    rfl
  unfold registryRemove at h
  rw [Lock_unlocked r hmu] at h
  simp only [bind, Except.bind] at h
  by_cases hpos : port > 0
  · rw [if_pos hpos] at h
    by_cases hgt : port > gfPortMax
    · rw [if_pos hgt] at h
      injection h with h
      left
      rw [← h, hsame]
    · rw [if_neg hgt] at h
      cases hrm : removeAt { r with mu := { writer := true, readers := 0 } } port name x with
      | error e => simp [hrm] at h
      | ok r2 =>
        simp only [hrm] at h
        injection h with h
        obtain ⟨q0, q1, hr2⟩ := removeAt_ok _ _ _ _ _ hrm
        right
        refine ⟨port, q0, q1, ?_⟩
        rw [← h, hr2]
        rfl
  · rw [if_neg hpos] at h
    by_cases hname : name ≠ "" ∧ hasSlashPrefix name = true
    · rw [if_pos hname, registrySearch_wlocked _ _ _ rfl] at h
      cases h
    · rw [if_neg hname] at h
      simp only [ne_eq, not_true_eq_false, if_false] at h
      by_cases hx : x ≠ none
      · rw [if_pos hx] at h
        cases hs : registrySearchByXprt { r with mu := { writer := true, readers := 0 } } x t with
        | error e => simp [hs] at h
        | ok q =>
          simp only [hs] at h
          by_cases hq : q = 0
          · simp only [hq, not_true_eq_false, if_false] at h
            injection h with h
            left
            rw [← h, hsame]
          · rw [if_pos hq] at h
            cases hrm : removeAt { r with mu := { writer := true, readers := 0 } } q name x with
            | error e => simp [hrm] at h
            | ok r2 =>
              simp only [hrm] at h
              injection h with h
              obtain ⟨q0, q1, hr2⟩ := removeAt_ok _ _ _ _ _ hrm
              right
              refine ⟨q, q0, q1, ?_⟩
              rw [← h, hr2]
              rfl
      · rw [if_neg hx] at h
        injection h with h
        left
        rw [← h, hsame]

/-! ## An invariant of the reachable states -/

theorem releasedEntry_names (e : portStatus) (name : String) (x : Option Nat)
    (h : (releasedEntry e name x).Bricknames ≠ []) : e.Bricknames ≠ [] := by
  intro he
  apply h
  simp [releasedEntry, he, deleteFromSlice, findPos]

theorem Settled_init (r : Registry) (h : Initialized r) : Settled r := by
  obtain ⟨h1, h2, h3, h4⟩ := h
  refine ⟨h1, h2, ?_, ?_⟩
  · rw [h3]; decide
  · intro p hp
    exact absurd (h4 p).2.1 hp

theorem Settled_alloc (f : Int → Bool) (rf : Bool) (r r1 : Registry) (p : Int)
    (hs : Settled r) (h : registryAlloc f r rf = .ok (p, r1)) : Settled r1 := by
  obtain ⟨_, s2, s3, s4⟩ := hs
  obtain ⟨_, a2, a3, a4, hcase⟩ := registryAlloc_ok f r r1 rf p h
  have hnames : ∀ q, (r1.Ports q).Bricknames = (r.Ports q).Bricknames := by
    intro q
    rcases hcase with ⟨_, hp⟩ | ⟨_, _, _, _, _, hp⟩
    · rw [hp]
    · rw [hp]
      by_cases hq : q = p
      · simp [hq]
      · simp [hq]
  have hlt : p < portsLen := by
    rcases hcase with ⟨hp, _⟩ | ⟨_, _, hp, _⟩
    · rw [hp]; decide
    · exact hp
  refine ⟨a2, by rw [a3, s2], ?_, ?_⟩
  · rw [a4]
    exact max_lt s3 hlt
  · intro q hq
    rw [hnames] at hq
    rw [a4]
    exact le_trans (s4 q hq) (le_max_left _ _)

theorem Settled_bind (r r1 : Registry) (port : Int) (name : String) (t : PortType)
    (x : Option Nat) (hs : Settled r) (h : registryBind r port name t x = .ok r1) :
    Settled r1 := by
  rcases registryBind_ok r r1 port name t x hs.1 h with ⟨_, h1⟩ | ⟨_, hb, h1⟩
  · rw [h1]; exact hs
  · obtain ⟨_, s2, s3, s4⟩ := hs
    rw [h1]
    refine ⟨rfl, s2, ?_, ?_⟩
    · show (if r.LastAlloc < port then port else r.LastAlloc) < portsLen
      split
      · exact hb
      · exact s3
    · intro q hq
      show q ≤ (if r.LastAlloc < port then port else r.LastAlloc)
      by_cases hqp : q = port
      · subst hqp
        split <;> omega
      · have hq2 : (r.Ports q).Bricknames ≠ [] := by simpa [hqp] using hq
        have := s4 q hq2
        split <;> omega

theorem Settled_remove (r r1 : Registry) (port : Int) (name : String) (t : PortType)
    (x : Option Nat) (hs : Settled r) (h : registryRemove r port name t x = .ok r1) :
    Settled r1 := by
  rcases registryRemove_ok r r1 port name t x hs.1 h with h1 | ⟨q, _, _, h1⟩
  · rw [h1]; exact hs
  · obtain ⟨_, s2, s3, s4⟩ := hs
    rw [h1]
    refine ⟨rfl, s2, s3, ?_⟩
    intro k hk
    show k ≤ r.LastAlloc
    by_cases hkq : k = q
    · subst hkq
      have hk2 : (releasedEntry (r.Ports k) name x).Bricknames ≠ [] := by simpa using hk
      exact s4 k (releasedEntry_names _ _ _ hk2)
    · exact s4 k (by simpa [hkq] using hk)

theorem Settled_assign (f : Int → Bool) (r r1 : Registry) (oldport p : Int)
    (brickpath : String) (hs : Settled r)
    (h : AssignPort f r oldport brickpath = .ok (p, r1)) : Settled r1 := by
  unfold AssignPort at h
  by_cases ho : oldport ≠ 0
  · rw [if_pos ho] at h
    cases hrm : registryRemove r 0 brickpath GfPmapPortBrickserver none with
    | error e => simp [hrm, bind, Except.bind] at h
    | ok r0 =>
      simp only [hrm, bind, Except.bind] at h
      exact Settled_alloc f true r0 r1 p (Settled_remove _ _ _ _ _ _ hs hrm) h
  · rw [if_neg ho] at h
    exact Settled_alloc f true r r1 p hs h

theorem Reachable_settled (r : Registry) (h : Reachable r) : Settled r := by
  induction h with
  | init r hi => exact Settled_init r hi
  | alloc f rf r r1 p _ h ih => exact Settled_alloc f rf r r1 p ih h
  | assign f r r1 oldport p brickpath _ h ih => exact Settled_assign f r r1 oldport p brickpath ih h
  | bind r r1 port name t x _ h ih => exact Settled_bind r r1 port name t x ih h
  | remove r r1 port name t x _ h ih => exact Settled_remove r r1 port name t x ih h

/-! ## The scan of `registrySearch` -/

theorem stringInSlice_iff (query : String) (list : List String) :
    stringInSlice query list = true ↔ query ∈ list := by
  induction list with
  | nil => simp [stringInSlice]
  | cons s rest ih =>
    by_cases hs : s = query
    · simp [stringInSlice, hs]
    · have hq : ¬ query = s := fun h => hs h.symm
      simp [stringInSlice, hs, hq, ih]

/-- A scan of `registrySearch` that stays inside the table returns the highest
port it visits whose state is `t` and whose owners contain `name`, and `0`
when it visits no such port. -/
theorem registrySearchLoop_spec (r : Registry) (name : String) (t : PortType) :
    ∀ (n : Nat) (p : Int), p < portsLen → 0 ≤ r.BasePort → r.BasePort + n ≤ p + 1 →
      ∃ port, registrySearchLoop r name t n p = .ok port ∧
        ((port = 0 ∧ ∀ k, p - n < k → k ≤ p →
            ¬ ((r.Ports k).Typ = t ∧ name ∈ (r.Ports k).Bricknames)) ∨
         (p - n < port ∧ port ≤ p ∧ (r.Ports port).Typ = t ∧ name ∈ (r.Ports port).Bricknames ∧
            ∀ k, port < k → k ≤ p →
              ¬ ((r.Ports k).Typ = t ∧ name ∈ (r.Ports k).Bricknames))) := by
  intro n
  induction n with
  | zero =>
    intro p _ _ _
    refine ⟨0, rfl, Or.inl ⟨rfl, ?_⟩⟩
    intro k hk1 hk2
    simp only [Nat.cast_zero, sub_zero] at hk1
    omega
  | succ n ih =>
    intro p hp hbase hn
    push_cast at hn
    have h0 : 0 ≤ p := by omega
    have hcond : p ≥ r.BasePort := by omega
    simp only [registrySearchLoop, if_pos hcond, portAt_ok r p h0 hp, bind, Except.bind]
    by_cases hhit : (r.Ports p).Typ = t ∧ name ∈ (r.Ports p).Bricknames
    · have hne : ¬ ((r.Ports p).Bricknames.length = 0 ∨ (r.Ports p).Typ ≠ t) := by
        rintro (hlen | hty)
        · rw [List.length_eq_zero] at hlen
          rw [hlen] at hhit
          simp at hhit
        · exact hty hhit.1
      rw [if_neg hne, if_pos ((stringInSlice_iff _ _).2 hhit.2)]
      refine ⟨p, rfl, Or.inr ⟨by push_cast; omega, le_refl _, hhit.1, hhit.2, ?_⟩⟩
      intro k hk1 hk2
      omega
    · obtain ⟨port, hport, hcase⟩ := ih (p - 1) (by omega) hbase (by omega)
      have hstep : (if (r.Ports p).Bricknames.length = 0 ∨ (r.Ports p).Typ ≠ t then
            registrySearchLoop r name t n (p - 1)
          else if stringInSlice name (r.Ports p).Bricknames = true then Except.ok p
          else registrySearchLoop r name t n (p - 1)) =
          registrySearchLoop r name t n (p - 1) := by
        split
        · rfl
        · rename_i hc
          push_neg at hc
          have hnot : ¬ stringInSlice name (r.Ports p).Bricknames = true := by
            intro hin
            exact hhit ⟨hc.2, (stringInSlice_iff _ _).1 hin⟩
          rw [if_neg hnot]
      rw [hstep]
      refine ⟨port, hport, ?_⟩
      rcases hcase with ⟨hz, hnone⟩ | ⟨h1, h2, h3, h4, h5⟩
      · left
        refine ⟨hz, ?_⟩
        intro k hk1 hk2
        by_cases hkp : k = p
        · rw [hkp]; exact hhit
        · exact hnone k (by push_cast at hk1; omega) (by omega)
      · right
        refine ⟨by push_cast; omega, by omega, h3, h4, ?_⟩
        intro k hk1 hk2
        by_cases hkp : k = p
        · rw [hkp]; exact hhit
        · exact h5 k hk1 (by omega)

/-! ## C6: lookup by name -/

theorem Initialized_fresh : Initialized freshRegistry :=
  ⟨rfl, rfl, rfl, fun _ => ⟨Or.inl rfl, rfl, rfl⟩⟩

theorem Reachable_lowBound : Reachable lowBoundRegistry :=
  Reachable.bind freshRegistry lowBoundRegistry 100 "/bricks/b1" GfPmapPortBrickserver none
    (Reachable.init _ Initialized_fresh) (by rfl)

theorem Reachable_twiceBound : Reachable twiceBoundRegistry := by
  have h1 := registryBind_inTable freshRegistry 49152 "/bricks/b1" GfPmapPortBrickserver
    (some 1) rfl (by decide) (by decide)
  have r1 := Reachable.bind _ _ _ _ _ _ (Reachable.init _ Initialized_fresh) h1
  exact Reachable.bind _ twiceBoundRegistry 49160 "/bricks/b1" GfPmapPortBrickserver (some 2)
    r1 (by rfl)

/-- C6 fails for a port below `BasePort`: after `registryBind(100, "/bricks/b1",
GfPmapPortBrickserver, nil)` on an initialised registry, port 100 has state
Brickserver and owner `"/bricks/b1"`, and `registrySearch` returns `0`. -/
theorem registrySearch_below_base_counterexample :
    Reachable lowBoundRegistry ∧
    ((0 : Int) ≤ 100 ∧ (100 : Int) < portsLen ∧
      (lowBoundRegistry.Ports 100).Typ = GfPmapPortBrickserver ∧
      "/bricks/b1" ∈ (lowBoundRegistry.Ports 100).Bricknames) ∧
    registrySearch lowBoundRegistry "/bricks/b1" GfPmapPortBrickserver =
      .ok (0, lowBoundRegistry) :=
  ⟨Reachable_lowBound, ⟨by decide, by decide, rfl, by decide⟩, rfl⟩

theorem RLock_RUnlock (r : Registry) (hmu : r.mu = RWMutex.unlocked) :
    ∃ r1, r.RLock = .ok r1 ∧ r1.RUnlock = r ∧ r1.BasePort = r.BasePort ∧
      r1.LastAlloc = r.LastAlloc ∧ r1.Ports = r.Ports := by
  obtain ⟨m, b, l, ps⟩ := r
  simp only at hmu
  subst hmu
  exact ⟨_, rfl, rfl, rfl, rfl, rfl⟩

/-- The result of `registrySearch` in a state with the invariant `Settled`. -/
theorem registrySearch_settled (r : Registry) (name : String) (t : PortType)
    (hs : Settled r) :
    ∃ port, registrySearch r name t = .ok (port, r) ∧
      ((∃ p, SearchHit r name t p) →
        SearchHit r name t port ∧ ∀ p, SearchHit r name t p → p ≤ port) ∧
      ((¬ ∃ p, SearchHit r name t p) → port = 0) := by
  obtain ⟨s1, s2, s3, s4⟩ := hs
  obtain ⟨r1, hl, hu, hb, hla, hp⟩ := RLock_RUnlock r s1
  have hin : ∀ k, SearchHit r name t k → r.BasePort ≤ k ∧ k ≤ r.LastAlloc ∧
      ((r1.Ports k).Typ = t ∧ name ∈ (r1.Ports k).Bricknames) := by
    intro k hk
    obtain ⟨k1, _, k3, k4⟩ := hk
    refine ⟨k1, s4 k ?_, by rw [hp]; exact ⟨k3, k4⟩⟩
    intro hnil
    rw [hnil] at k4
    simp at k4
  unfold registrySearch
  rw [hl]
  simp only [bind, Except.bind, hb, hla]
  by_cases hempty : r.LastAlloc + 1 - r.BasePort ≤ 0
  · rw [Int.toNat_eq_zero.2 hempty]
    simp only [registrySearchLoop, hu]
    refine ⟨0, rfl, ?_, fun _ => rfl⟩
    rintro ⟨k, hk⟩
    obtain ⟨k1, k2, _⟩ := hin k hk
    omega
  · push_neg at hempty
    have hn : ((r.LastAlloc + 1 - r.BasePort).toNat : Int) = r.LastAlloc + 1 - r.BasePort :=
      Int.toNat_of_nonneg (le_of_lt hempty)
    have hbase : (0 : Int) ≤ r.BasePort := by rw [s2]; decide
    obtain ⟨port, hport, hcase⟩ := registrySearchLoop_spec r1 name t
      (r.LastAlloc + 1 - r.BasePort).toNat r.LastAlloc s3 (by rw [hb]; exact hbase)
      (by rw [hn, hb]; omega)
    rw [hport]
    simp only [hu]
    refine ⟨port, rfl, ?_⟩
    rw [hn] at hcase
    rcases hcase with ⟨hz, hnone⟩ | ⟨h1, h2, h3, h4, h5⟩
    · constructor
      · rintro ⟨k, hk⟩
        obtain ⟨k1, k2, k3⟩ := hin k hk
        exact absurd k3 (hnone k (by omega) k2)
      · intro _
        exact hz
    · have hhit : SearchHit r name t port := by
        rw [hp] at h3 h4
        exact ⟨by omega, by omega, h3, h4⟩
      constructor
      · intro _
        refine ⟨hhit, ?_⟩
        intro k hk
        obtain ⟨k1, k2, k3⟩ := hin k hk
        by_contra hlt
        push_neg at hlt
        exact h5 k hlt k2 k3
      · intro hno
        exact absurd ⟨port, hhit⟩ hno

/-- C6 (amended): in every registry state reachable from an initialised registry
by allocate, bind and release operations, and for every name and type:
`registrySearch(name, type)` returns and leaves the registry as it was; if at
least one port from `BasePort` on has state equal to the type and owners
containing the name, it returns the highest-numbered such port; otherwise it
returns `0`. -/
theorem registrySearch_highest_from_base (r : Registry) (name : String) (t : PortType)
    (hr : Reachable r) :
    ∃ port, registrySearch r name t = .ok (port, r) ∧
      ((∃ p, SearchHit r name t p) →
        SearchHit r name t port ∧ ∀ p, SearchHit r name t p → p ≤ port) ∧
      ((¬ ∃ p, SearchHit r name t p) → port = 0) :=
  registrySearch_settled r name t (Reachable_settled r hr)

theorem registrySearch_highest_from_base_witness :
    ∃ port, registrySearch twiceBoundRegistry "/bricks/b1" GfPmapPortBrickserver =
        .ok (port, twiceBoundRegistry) ∧
      ((∃ p, SearchHit twiceBoundRegistry "/bricks/b1" GfPmapPortBrickserver p) →
        SearchHit twiceBoundRegistry "/bricks/b1" GfPmapPortBrickserver port ∧
        ∀ p, SearchHit twiceBoundRegistry "/bricks/b1" GfPmapPortBrickserver p → p ≤ port) ∧
      ((¬ ∃ p, SearchHit twiceBoundRegistry "/bricks/b1" GfPmapPortBrickserver p) → port = 0) :=
  registrySearch_highest_from_base twiceBoundRegistry "/bricks/b1" GfPmapPortBrickserver
    Reachable_twiceBound

/-- On the registry with `"/bricks/b1"` bound to ports 49152 and 49160 the lookup
returns 49160. -/
theorem registrySearch_twiceBound :
    registrySearch twiceBoundRegistry "/bricks/b1" GfPmapPortBrickserver =
      .ok (49160, twiceBoundRegistry) := by
  rfl

/-! ## C7: how a release picks its port -/

theorem hasSlashPrefix_ne_empty (name : String) (h : hasSlashPrefix name = true) :
    name ≠ "" := by
  intro he
  rw [he] at h
  exact Bool.noConfusion h

/-- C7 (what the code does on the lookup by name): a release with no explicit
port and a name that begins with `/` does not return.  `registryRemove` holds
the write lock when it calls `registrySearch`, and `registrySearch` asks for
the read lock of the same mutex. -/
theorem registryRemove_by_name_deadlock (r : Registry) (port : Int) (name : String)
    (t : PortType) (x : Option Nat) (hmu : r.mu = RWMutex.unlocked) (hport : port ≤ 0)
    (hname : hasSlashPrefix name = true) :
    registryRemove r port name t x = .error Fault.deadlock := by
  unfold registryRemove
  rw [Lock_unlocked r hmu]
  simp only [bind, Except.bind]
  rw [if_neg (not_lt.2 hport), if_pos ⟨hasSlashPrefix_ne_empty name hname, hname⟩,
    registrySearch_wlocked _ _ _ rfl]

theorem registryRemove_by_name_deadlock_witness :
    registryRemove twiceBoundRegistry 0 "/bricks/b1" GfPmapPortBrickserver none =
      .error Fault.deadlock :=
  registryRemove_by_name_deadlock twiceBoundRegistry 0 "/bricks/b1" GfPmapPortBrickserver none
    rfl (by decide) (by rfl)

/-- The lookup by session reads the table and the two marks, not the lock. -/
theorem registrySearchByXprt_locked (r : Registry) (m : RWMutex) (x : Option Nat)
    (t : PortType) :
    registrySearchByXprt { r with mu := m } x t = registrySearchByXprt r x t := by
  have hloop : ∀ (n : Nat) (p : Int),
      registrySearchByXprtLoop { r with mu := m } x t n p =
        registrySearchByXprtLoop r x t n p := by
    intro n
    induction n with
    | zero => intro p; rfl
    | succ n ih =>
      intro p
      simp only [registrySearchByXprtLoop, ih]
      rfl
  exact hloop _ _

/-- The remaining branch of the precedence chain: with no explicit port and a
name that does not begin with `/`, the release acts on the non-zero port found
by `registrySearchByXprt`, and changes nothing when the session is unset or that
lookup returns `0`. -/
theorem registryRemove_by_session (r r1 : Registry) (port : Int) (name : String)
    (t : PortType) (x : Option Nat) (hmu : r.mu = RWMutex.unlocked) (hport : port ≤ 0)
    (hname : hasSlashPrefix name = false)
    (h : registryRemove r port name t x = .ok r1) :
    (x = none ∧ r1 = r) ∨
    (x ≠ none ∧ registrySearchByXprt r x t = .ok 0 ∧ r1 = r) ∨
    (x ≠ none ∧ ∃ q, q ≠ 0 ∧ registrySearchByXprt r x t = .ok q ∧ 0 ≤ q ∧ q < portsLen ∧
      r1 = { mu := RWMutex.unlocked, BasePort := r.BasePort, LastAlloc := r.LastAlloc,
             Ports := fun k => if k = q then releasedEntry (r.Ports q) name x
                               else r.Ports k }) := by
  have hsame : ({ r with mu := { writer := true, readers := 0 } } : Registry).Unlock = r := by
    obtain ⟨m, b, l, ps⟩ := r
    simp only at hmu
    subst hmu
    rfl
  have hsearch : registrySearchByXprt { r with mu := { writer := true, readers := 0 } } x t =
      registrySearchByXprt r x t := registrySearchByXprt_locked r _ x t
  unfold registryRemove at h
  rw [Lock_unlocked r hmu] at h
  simp only [bind, Except.bind] at h
  rw [if_neg (not_lt.2 hport)] at h
  have hno : ¬ (name ≠ "" ∧ hasSlashPrefix name = true) := by
    rw [hname]
    simp
  rw [if_neg hno] at h
  simp only [ne_eq, not_true_eq_false, if_false] at h
  by_cases hx : x ≠ none
  · right
    rw [if_pos hx, hsearch] at h
    cases hs : registrySearchByXprt r x t with
    | error e => simp [hs] at h
    | ok q =>
      simp only [hs] at h
      by_cases hq : q = 0
      · simp only [hq, not_true_eq_false, if_false] at h
        injection h with h
        left
        rw [hq]
        exact ⟨hx, rfl, by rw [← h, hsame]⟩
      · rw [if_pos hq] at h
        cases hrm : removeAt { r with mu := { writer := true, readers := 0 } } q name x with
        | error e => simp [hrm] at h
        | ok r2 =>
          simp only [hrm] at h
          injection h with h
          obtain ⟨q0, q1, hr2⟩ := removeAt_ok _ _ _ _ _ hrm
          right
          refine ⟨hx, q, hq, rfl, q0, q1, ?_⟩
          rw [← h, hr2]
          rfl
  · left
    rw [if_neg hx] at h
    injection h with h
    exact ⟨not_not.1 hx, by rw [← h, hsame]⟩

/-! ## C8: ports above the maximum -/

/-- C8: for every registry state and every port number greater than `gfPortMax`,
`registryBind` returns with the registry unchanged, `registrySearchByPort`
returns the empty string with the registry unchanged, and `registryRemove`,
which takes the lock before it looks at the port, returns with the registry
unchanged once it has the lock. -/
theorem above_max_is_noop (r : Registry) (port : Int) (name : String) (t : PortType)
    (x : Option Nat) (hport : port > gfPortMax) :
    registryBind r port name t x = .ok r ∧
    registrySearchByPort r port = .ok ("", r) ∧
    (r.mu = RWMutex.unlocked → registryRemove r port name t x = .ok r) := by
  refine ⟨?_, ?_, ?_⟩
  · unfold registryBind
    rw [if_pos hport]
  · unfold registrySearchByPort
    rw [if_pos hport]
  · intro hmu
    have hpos : port > 0 := by
      simp only [gfPortMax] at hport
      omega
    unfold registryRemove
    rw [Lock_unlocked r hmu]
    simp only [bind, Except.bind]
    rw [if_pos hpos, if_pos hport]
    obtain ⟨m, b, l, ps⟩ := r
    simp only at hmu
    subst hmu
    rfl

theorem above_max_is_noop_witness :
    registryBind twiceBoundRegistry 65536 "/bricks/b1" GfPmapPortBrickserver (some 1) =
      .ok twiceBoundRegistry ∧
    registrySearchByPort twiceBoundRegistry 65536 = .ok ("", twiceBoundRegistry) ∧
    registryRemove twiceBoundRegistry 65536 "/bricks/b1" GfPmapPortBrickserver (some 1) =
      .ok twiceBoundRegistry :=
  have h := above_max_is_noop twiceBoundRegistry 65536 "/bricks/b1" GfPmapPortBrickserver
    (some 1) (by decide)
  ⟨h.1, h.2.1, h.2.2 rfl⟩

/-! ## C9: the port `gfPortMax` itself -/

/-- C9 (what the code does): the table has `gfPortMax` slots, numbered
`0 .. gfPortMax - 1`, and the guard `port > gfPortMax` lets the port `gfPortMax`
through; with that port `registrySearchByPort`, `registryBind` and
`registryRemove` all index the table outside its bounds. -/
theorem port_max_index_error (r : Registry) (name : String) (t : PortType) (x : Option Nat)
    (hmu : r.mu = RWMutex.unlocked) :
    registrySearchByPort r gfPortMax = .error Fault.indexOutOfRange ∧
    registryBind r gfPortMax name t x = .error Fault.indexOutOfRange ∧
    registryRemove r gfPortMax name t x = .error Fault.indexOutOfRange := by
  have hout : ∀ r0 : Registry, r0.portAt gfPortMax = .error Fault.indexOutOfRange :=
    fun r0 => portAt_error r0 gfPortMax (by decide)
  have hw : r.mu.writer = false := by rw [hmu]; rfl
  refine ⟨?_, ?_, ?_⟩
  · simp [registrySearchByPort, Registry.RLock, hw, hout, bind, Except.bind]
  · unfold registryBind
    rw [if_neg (by decide), Lock_unlocked r hmu]
    simp only [bind, Except.bind, hout]
  · unfold registryRemove
    rw [Lock_unlocked r hmu]
    simp only [bind, Except.bind]
    rw [if_pos (by decide), if_neg (by decide)]
    simp only [removeAt, hout, bind, Except.bind]

theorem port_max_index_error_witness :
    registrySearchByPort freshRegistry gfPortMax = .error Fault.indexOutOfRange ∧
    registryBind freshRegistry gfPortMax "/bricks/b1" GfPmapPortBrickserver none =
      .error Fault.indexOutOfRange ∧
    registryRemove freshRegistry gfPortMax "/bricks/b1" GfPmapPortBrickserver none =
      .error Fault.indexOutOfRange :=
  port_max_index_error freshRegistry "/bricks/b1" GfPmapPortBrickserver none rfl

/-! ## C10: initialisation -/

/-- The loop of `initRegistry` run up to `i = gfPortMax` leaves the table. -/
theorem initRegistryLoop_index_error (f : Int → Bool) :
    ∀ (n : Nat) (i : Int) (r : Registry), 0 ≤ i → i + n = gfPortMax + 1 → 1 ≤ n →
      initRegistryLoop f n i r = .error Fault.indexOutOfRange := by
  intro n
  induction n with
  | zero => intro i r _ _ h1; omega
  | succ n ih =>
    intro i r h0 hsum _
    have hcond : i ≤ gfPortMax := by
      push_cast at hsum
      omega
    by_cases hb : i < portsLen
    · have hn : 1 ≤ n := by
        simp only [portsLen, gfPortMax] at hb hsum
        push_cast at hsum
        omega
      simp only [initRegistryLoop, if_pos hcond, portAt_ok r i h0 hb, bind, Except.bind]
      exact ih (i + 1) _ (by omega) (by push_cast at hsum; omega) hn
    · simp only [initRegistryLoop, if_pos hcond, portAt_error r i (fun h => hb h.2), bind,
        Except.bind]

/-- C10 (what the code does): whatever the probe reports, `initRegistry` run on
the zero-valued registry does not complete: its loop runs up to `i = gfPortMax`
and indexes `Ports[gfPortMax]` in a table of length `gfPortMax`. -/
theorem initRegistry_index_error (f : Int → Bool) :
    initRegistry f Registry.zero = .error Fault.indexOutOfRange := by
  unfold initRegistry
  rw [Lock_unlocked _ rfl]
  simp only [bind, Except.bind]
  rw [initRegistryLoop_index_error f _ _ _ (by decide) (by decide) (by decide)]

/-- The loop of `initRegistry` run over slots of the table only: every slot it
visits gets the state the probe dictates, and nothing else changes. -/
theorem initRegistryLoop_table (f : Int → Bool) :
    ∀ (n : Nat) (i : Int) (r : Registry), 0 ≤ i → i + n ≤ portsLen →
      ∃ r1, initRegistryLoop f n i r = .ok r1 ∧ r1.mu = r.mu ∧ r1.BasePort = r.BasePort ∧
        r1.LastAlloc = r.LastAlloc ∧
        ∀ q, r1.Ports q =
          if i ≤ q ∧ q < i + n then
            { Typ := if f q = true then GfPmapPortFree else GfPmapPortForeign,
              Bricknames := (r.Ports q).Bricknames, Xprt := (r.Ports q).Xprt }
          else r.Ports q := by
  intro n
  induction n with
  | zero =>
    intro i r _ _
    refine ⟨r, rfl, rfl, rfl, rfl, ?_⟩
    intro q
    have hno : ¬ (i ≤ q ∧ q < i + ((0 : Nat) : Int)) := by
      push_cast
      omega
    rw [if_neg hno]
  | succ n ih =>
    intro i r h0 hsum
    push_cast at hsum
    have hcond : i ≤ gfPortMax := by
      simp only [portsLen] at hsum
      omega
    simp only [initRegistryLoop, if_pos hcond, portAt_ok r i h0 (by omega), bind, Except.bind]
    obtain ⟨r1, h1, h2, h3, h4, h5⟩ := ih (i + 1)
      (r.setPort i { Typ := if f i = true then GfPmapPortFree else GfPmapPortForeign,
                     Bricknames := (r.Ports i).Bricknames, Xprt := (r.Ports i).Xprt })
      (by omega) (by omega)
    refine ⟨r1, h1, h2, h3, h4, ?_⟩
    intro q
    rw [h5 q]
    by_cases hq : q = i
    · subst hq
      have ha : ¬ (q + 1 ≤ q ∧ q < q + 1 + (n : Int)) := by omega
      have hb : q ≤ q ∧ q < q + ((n + 1 : Nat) : Int) := by
        push_cast
        omega
      rw [if_neg ha, if_pos hb]
      simp [Registry.setPort]
    · by_cases hin : i + 1 ≤ q ∧ q < i + 1 + (n : Int)
      · have hb : i ≤ q ∧ q < i + ((n + 1 : Nat) : Int) := by
          push_cast
          omega
        rw [if_pos hin, if_pos hb]
        simp [Registry.setPort, hq]
      · have hb : ¬ (i ≤ q ∧ q < i + ((n + 1 : Nat) : Int)) := by
          push_cast
          omega
        rw [if_neg hin, if_neg hb]
        simp [Registry.setPort, hq]

/-- Stopped after the last slot of the table, the loop of `initRegistry` has
classified every port from 49152 to 65534 as the probe dictates, and the
registry it leaves is an initialised one. -/
theorem initRegistry_table_slots (f : Int → Bool) :
    ∃ r1, initRegistryLoop f (portsLen - gfIanaPrivPortsStart).toNat gfIanaPrivPortsStart
        { mu := { writer := true, readers := 0 }, BasePort := gfIanaPrivPortsStart,
          LastAlloc := 0, Ports := fun _ => portStatus.zero } = .ok r1 ∧
      Initialized r1.Unlock ∧
      ∀ p, gfIanaPrivPortsStart ≤ p → p < portsLen →
        (r1.Ports p).Typ = if f p = true then GfPmapPortFree else GfPmapPortForeign := by
  obtain ⟨r1, h1, h2, h3, h4, h5⟩ := initRegistryLoop_table f
    (portsLen - gfIanaPrivPortsStart).toNat gfIanaPrivPortsStart
    { mu := { writer := true, readers := 0 }, BasePort := gfIanaPrivPortsStart,
      LastAlloc := 0, Ports := fun _ => portStatus.zero } (by decide) (by decide)
  refine ⟨r1, h1, ⟨?_, h3, h4, ?_⟩, ?_⟩
  · simp [Registry.Unlock, h2, RWMutex.unlocked]
  · intro p
    show ((r1.Ports p).Typ = GfPmapPortFree ∨ (r1.Ports p).Typ = GfPmapPortForeign) ∧
      (r1.Ports p).Bricknames = [] ∧ (r1.Ports p).Xprt = none
    rw [h5 p]
    split
    · refine ⟨?_, rfl, rfl⟩
      by_cases hf : f p = true
      · left; simp [hf]
      · right; simp [hf]
    · exact ⟨Or.inl rfl, rfl, rfl⟩
  · intro p hp1 hp2
    rw [h5 p, if_pos ⟨hp1, by
      have : ((portsLen - gfIanaPrivPortsStart).toNat : Int) = portsLen - gfIanaPrivPortsStart :=
        Int.toNat_of_nonneg (by decide)
      omega⟩]

/-! ## C11: lookup by port -/

theorem RLock_RUnlock_reader (r : Registry) (hw : r.mu.writer = false) :
    ∃ r1, r.RLock = .ok r1 ∧ r1.RUnlock = r ∧ r1.Ports = r.Ports := by
  obtain ⟨⟨w, n⟩, b, l, ps⟩ := r
  simp only at hw
  subst hw
  exact ⟨_, rfl, rfl, rfl⟩

/-- C11: for every registry state and every port within the table,
`registrySearchByPort(port)` returns the owner names of the port joined by
single spaces when the state of the port is Brickserver and the empty string
for every other state, and it leaves the registry as it was.  (The read lock
is granted when no writer holds the mutex.) -/
theorem registrySearchByPort_inTable (r : Registry) (port : Int) (h0 : 0 ≤ port)
    (h1 : port < portsLen) (hw : r.mu.writer = false) :
    registrySearchByPort r port =
      .ok (if (r.Ports port).Typ = GfPmapPortBrickserver then
             " ".intercalate (r.Ports port).Bricknames
           else "", r) := by
  have hle : ¬ port > gfPortMax := by
    simp only [portsLen] at h1
    omega
  obtain ⟨r1, hl, hu, hp⟩ := RLock_RUnlock_reader r hw
  unfold registrySearchByPort
  rw [if_neg hle, hl]
  simp only [bind, Except.bind]
  rw [portAt_ok r1 port h0 h1, hp]
  simp only [hu]
  split <;> rfl

theorem registrySearchByPort_inTable_witness :
    registrySearchByPort muxRegistry 49152 =
      .ok (if (muxRegistry.Ports 49152).Typ = GfPmapPortBrickserver then
             " ".intercalate (muxRegistry.Ports 49152).Bricknames
           else "", muxRegistry) :=
  registrySearchByPort_inTable muxRegistry 49152 (by decide) (by decide) rfl

/-- On the registry with two bricks multiplexed on port 49152 the lookup by
port returns both names, and it returns the empty string for a leased port. -/
theorem registrySearchByPort_examples :
    registrySearchByPort muxRegistry 49152 = .ok ("/bricks/b1 /bricks/b2", muxRegistry) ∧
    registrySearchByPort leasedFirstRegistry 49152 = .ok ("", leasedFirstRegistry) := by
  constructor <;> rfl

/-! ## C13: what a bind changes -/

/-- C13: for every registry state and every port `p` within the table,
`registryBind(p, name, type, session)` returns; afterwards the state of `p` is
`type`, its owners are the previous owners with `name` appended, its session is
the given one whatever it was before, `LastAlloc` is the maximum of its old
value and `p`, and every other entry, the base port and the lock are as they
were. -/
theorem registryBind_frame (r : Registry) (p : Int) (name : String) (t : PortType)
    (x : Option Nat) (hmu : r.mu = RWMutex.unlocked) (h0 : 0 ≤ p) (h1 : p < portsLen) :
    ∃ r1, registryBind r p name t x = .ok r1 ∧
      (r1.Ports p).Typ = t ∧
      (r1.Ports p).Bricknames = (r.Ports p).Bricknames ++ [name] ∧
      (r1.Ports p).Xprt = x ∧
      r1.LastAlloc = max r.LastAlloc p ∧
      (∀ q, q ≠ p → r1.Ports q = r.Ports q) ∧
      r1.BasePort = r.BasePort ∧ r1.mu = r.mu := by
  refine ⟨_, registryBind_inTable r p name t x hmu h0 h1, ?_, ?_, ?_, ?_, ?_, rfl, hmu.symm⟩
  · simp [boundEntry]
  · simp [boundEntry]
  · simp [boundEntry]
  · show (if r.LastAlloc < p then p else r.LastAlloc) = max r.LastAlloc p
    split
    · rename_i hlt
      exact (max_eq_right (le_of_lt hlt)).symm
    · rename_i hlt
      exact (max_eq_left (not_lt.1 hlt)).symm
  · intro q hq
    simp [hq]

theorem registryBind_frame_witness :
    ∃ r1, registryBind twiceBoundRegistry 49152 "/bricks/b2" GfPmapPortBrickserver (some 9) =
        .ok r1 ∧
      (r1.Ports 49152).Typ = GfPmapPortBrickserver ∧
      (r1.Ports 49152).Bricknames = (twiceBoundRegistry.Ports 49152).Bricknames ++ ["/bricks/b2"] ∧
      (r1.Ports 49152).Xprt = some 9 ∧
      r1.LastAlloc = max twiceBoundRegistry.LastAlloc 49152 ∧
      (∀ q, q ≠ 49152 → r1.Ports q = twiceBoundRegistry.Ports q) ∧
      r1.BasePort = twiceBoundRegistry.BasePort ∧ r1.mu = twiceBoundRegistry.mu :=
  registryBind_frame twiceBoundRegistry 49152 "/bricks/b2" GfPmapPortBrickserver (some 9)
    rfl (by decide) (by decide)

/-! ## C17: what an allocation changes -/

/-- C17: a returning `registryAlloc` leaves the lock, the base port, every
entry other than the returned port, and the owners and session of every entry
as they were; the state of the returned port is Leased or as before (the
latter only when `0` is returned for "no port"); in particular a Free port
whose probe failed is still Free. -/
theorem registryAlloc_frame (f : Int → Bool) (r r1 : Registry) (rf : Bool) (p : Int)
    (h : registryAlloc f r rf = .ok (p, r1)) :
    r1.mu = r.mu ∧ r1.BasePort = r.BasePort ∧
    (∀ q, q ≠ p → r1.Ports q = r.Ports q) ∧
    (∀ q, (r1.Ports q).Bricknames = (r.Ports q).Bricknames ∧
      (r1.Ports q).Xprt = (r.Ports q).Xprt) ∧
    ((r1.Ports p).Typ = GfPmapPortLeased ∨ (r1.Ports p).Typ = (r.Ports p).Typ) ∧
    (∀ q, (r.Ports q).Typ = GfPmapPortFree → f q = false →
      (r1.Ports q).Typ = GfPmapPortFree) := by
  obtain ⟨a1, a2, a3, _, hcase⟩ := registryAlloc_ok f r r1 rf p h
  refine ⟨by rw [a1, a2], a3, ?_⟩
  rcases hcase with ⟨_, hp⟩ | ⟨_, _, _, hc, _, hp⟩
  · rw [hp]
    exact ⟨fun _ _ => rfl, fun _ => ⟨rfl, rfl⟩, Or.inr rfl, fun _ hq _ => hq⟩
  · rw [hp]
    refine ⟨?_, ?_, ?_, ?_⟩
    · intro q hq
      simp [hq]
    · intro q
      by_cases hq : q = p
      · simp [hq]
      · simp [hq]
    · left
      simp
    · intro q hq hf
      have hqp : q ≠ p := by
        intro he
        rw [he, hc.2] at hf
        exact Bool.noConfusion hf
      simpa [hqp] using hq

theorem registryAlloc_frame_witness :
    leasedFirstRegistry.mu = freshRegistry.mu ∧
    leasedFirstRegistry.BasePort = freshRegistry.BasePort ∧
    (∀ q, q ≠ 49152 → leasedFirstRegistry.Ports q = freshRegistry.Ports q) ∧
    (∀ q, (leasedFirstRegistry.Ports q).Bricknames = (freshRegistry.Ports q).Bricknames ∧
      (leasedFirstRegistry.Ports q).Xprt = (freshRegistry.Ports q).Xprt) ∧
    ((leasedFirstRegistry.Ports 49152).Typ = GfPmapPortLeased ∨
      (leasedFirstRegistry.Ports 49152).Typ = (freshRegistry.Ports 49152).Typ) ∧
    (∀ q, (freshRegistry.Ports q).Typ = GfPmapPortFree → (fun _ => true) q = false →
      (leasedFirstRegistry.Ports q).Typ = GfPmapPortFree) :=
  registryAlloc_frame (fun _ => true) freshRegistry leasedFirstRegistry true 49152 (by rfl)

/-- An allocation in which the probe fails for port 49152 and succeeds for
49153: port 49153 is returned and port 49152 is still Free. -/
theorem registryAlloc_probe_failure_example :
    ∃ r1, registryAlloc (fun q => decide (q ≠ 49152)) freshRegistry true = .ok (49153, r1) ∧
      (r1.Ports 49152).Typ = GfPmapPortFree ∧ (r1.Ports 49153).Typ = GfPmapPortLeased :=
  ⟨_, rfl, rfl, rfl⟩

/-! ## C19 and C20: release at an explicit port -/

/-- C19: for every port `p > 0` within the table whose entry has exactly one
owner, `registryRemove(p, name, type, session)` returns and leaves the entry of
`p` with state Free, no owners and no session, for every name, type and
session: neither the name nor the type is compared with the entry. -/
theorem registryRemove_single_owner (r : Registry) (p : Int) (name : String) (t : PortType)
    (x : Option Nat) (hmu : r.mu = RWMutex.unlocked) (h0 : 0 < p) (h1 : p < portsLen)
    (hone : (r.Ports p).Bricknames.length = 1) :
    ∃ r1, registryRemove r p name t x = .ok r1 ∧
      (r1.Ports p).Typ = GfPmapPortFree ∧ (r1.Ports p).Bricknames = [] ∧
      (r1.Ports p).Xprt = none := by
  refine ⟨_, registryRemove_explicit r p name t x hmu h0 h1, ?_⟩
  simp [releasedEntry, hone, portStatus.zero]

theorem registryRemove_single_owner_witness :
    ∃ r1, registryRemove twiceBoundRegistry 49160 "/bricks/other" GfPmapPortLeased none =
        .ok r1 ∧
      (r1.Ports 49160).Typ = GfPmapPortFree ∧ (r1.Ports 49160).Bricknames = [] ∧
      (r1.Ports 49160).Xprt = none :=
  registryRemove_single_owner twiceBoundRegistry 49160 "/bricks/other" GfPmapPortLeased none
    rfl (by decide) (by decide) rfl

/-- C20: for every port `p > 0` within the table whose entry has no owners,
`registryRemove(p, name, type, session)` returns and leaves the state and the
owners of `p` as they were, for all arguments: a port that is leased and not
bound stays Leased. -/
theorem registryRemove_no_owner (r : Registry) (p : Int) (name : String) (t : PortType)
    (x : Option Nat) (hmu : r.mu = RWMutex.unlocked) (h0 : 0 < p) (h1 : p < portsLen)
    (hnone : (r.Ports p).Bricknames = []) :
    ∃ r1, registryRemove r p name t x = .ok r1 ∧
      (r1.Ports p).Typ = (r.Ports p).Typ ∧
      (r1.Ports p).Bricknames = (r.Ports p).Bricknames := by
  refine ⟨_, registryRemove_explicit r p name t x hmu h0 h1, ?_⟩
  simp [releasedEntry, hnone, deleteFromSlice, findPos]

theorem registryRemove_no_owner_witness :
    ∃ r1, registryRemove leasedFirstRegistry 49152 "/bricks/b1" GfPmapPortLeased none =
        .ok r1 ∧
      (r1.Ports 49152).Typ = (leasedFirstRegistry.Ports 49152).Typ ∧
      (r1.Ports 49152).Bricknames = (leasedFirstRegistry.Ports 49152).Bricknames :=
  registryRemove_no_owner leasedFirstRegistry 49152 "/bricks/b1" GfPmapPortLeased none
    rfl (by decide) (by decide) rfl

/-! ## C12 and C18: release by name from under the write lock -/

/-- C12 (what the code does): with `oldport != 0` and a brick path that begins
with `/`, `AssignPort` does not return.  Its clean-up is the release by name
`registryRemove(0, brickpath, GfPmapPortBrickserver, nil)`, which stops on the
read lock of the mutex it already holds for writing; no stale binding is
removed and no port is allocated. -/
theorem AssignPort_cleanup_deadlock (f : Int → Bool) (r : Registry) (oldport : Int)
    (brickpath : String) (hmu : r.mu = RWMutex.unlocked) (hold : oldport ≠ 0)
    (hpath : hasSlashPrefix brickpath = true) :
    AssignPort f r oldport brickpath = .error Fault.deadlock := by
  unfold AssignPort registryRemove
  rw [if_pos hold, Lock_unlocked r hmu]
  simp only [bind, Except.bind]
  rw [if_neg (by decide), if_pos ⟨hasSlashPrefix_ne_empty brickpath hpath, hpath⟩,
    registrySearch_wlocked _ _ _ rfl]

theorem AssignPort_cleanup_deadlock_witness :
    AssignPort (fun _ => true) twiceBoundRegistry 49152 "/bricks/b1" =
      .error Fault.deadlock :=
  AssignPort_cleanup_deadlock (fun _ => true) twiceBoundRegistry 49152 "/bricks/b1" rfl
    (by decide) (by rfl)

/-- The block `REMOVE` applied to the port that the lookup by name finds
(49160, the highest one bound to `"/bricks/b1"`) leaves the binding of the same
path on port 49152 in place. -/
theorem removeAt_leaves_lower_binding :
    ∃ r1, removeAt twiceBoundRegistry 49160 "/bricks/b1" none = .ok r1 ∧
      (r1.Ports 49152).Typ = GfPmapPortBrickserver ∧
      "/bricks/b1" ∈ (r1.Ports 49152).Bricknames :=
  ⟨_, rfl, rfl, by decide⟩

/-- C18 (what the code does): a release that resolves its port by name takes
the write lock, and the lookup by name then asks for the read lock of the same
mutex, which is refused while the writer holds it; `registrySearch` does not
return and neither does `registryRemove`. -/
theorem release_by_name_relocks (r : Registry) (name : String) (t : PortType)
    (x : Option Nat) (hmu : r.mu = RWMutex.unlocked) (hname : hasSlashPrefix name = true) :
    ∃ r1, r.Lock = .ok r1 ∧ r1.mu.writer = true ∧
      r1.RLock = .error Fault.deadlock ∧
      registrySearch r1 name t = .error Fault.deadlock ∧
      registryRemove r 0 name t x = .error Fault.deadlock := by
  refine ⟨_, Lock_unlocked r hmu, rfl, ?_, registrySearch_wlocked _ _ _ rfl, ?_⟩
  · simp [Registry.RLock]
  · unfold registryRemove
    rw [Lock_unlocked r hmu]
    simp only [bind, Except.bind]
    rw [if_neg (by decide), if_pos ⟨hasSlashPrefix_ne_empty name hname, hname⟩,
      registrySearch_wlocked _ _ _ rfl]

theorem release_by_name_relocks_witness :
    ∃ r1, muxRegistry.Lock = .ok r1 ∧ r1.mu.writer = true ∧
      r1.RLock = .error Fault.deadlock ∧
      registrySearch r1 "/bricks/b1" GfPmapPortBrickserver = .error Fault.deadlock ∧
      registryRemove muxRegistry 0 "/bricks/b1" GfPmapPortBrickserver none =
        .error Fault.deadlock :=
  release_by_name_relocks muxRegistry "/bricks/b1" GfPmapPortBrickserver none rfl (by rfl)

/-! ## Calls that return had the lock -/

theorem registryRemove_had_lock (r r1 : Registry) (port : Int) (name : String)
    (t : PortType) (x : Option Nat) (h : registryRemove r port name t x = .ok r1) :
    r.mu = RWMutex.unlocked := by
  unfold registryRemove at h
  cases hl : r.Lock with
  | error e =>
    rw [hl] at h
    simp only [bind, Except.bind] at h
    cases h
  | ok r0 => exact ((Lock_ok_iff r r0).1 hl).1

theorem registryBind_had_lock (r r1 : Registry) (port : Int) (name : String)
    (t : PortType) (x : Option Nat) (h : registryBind r port name t x = .ok r1) :
    (port > gfPortMax ∧ r1 = r) ∨ r.mu = RWMutex.unlocked := by
  by_cases hgt : port > gfPortMax
  · left
    unfold registryBind at h
    rw [if_pos hgt] at h
    injection h with h
    exact ⟨hgt, h.symm⟩
  · right
    unfold registryBind at h
    rw [if_neg hgt] at h
    cases hl : r.Lock with
    | error e =>
      rw [hl] at h
      simp only [bind, Except.bind] at h
      cases h
    | ok r0 => exact ((Lock_ok_iff r r0).1 hl).1

/-- The entries after a returning `registryBind`: all as before, or the entry
of `port` replaced by its bound form. -/
theorem registryBind_ports (r r1 : Registry) (port : Int) (name : String)
    (t : PortType) (x : Option Nat) (h : registryBind r port name t x = .ok r1) :
    (r1 = r) ∨
    (r1.LastAlloc = max r.LastAlloc port ∧
      r1.Ports = fun q => if q = port then boundEntry (r.Ports port) name t x else r.Ports q) := by
  rcases registryBind_had_lock r r1 port name t x h with ⟨_, h1⟩ | hmu
  · exact Or.inl h1
  · rcases registryBind_ok r r1 port name t x hmu h with ⟨_, h1⟩ | ⟨_, _, h1⟩
    · exact Or.inl h1
    · right
      rw [h1]
      refine ⟨?_, rfl⟩
      show (if r.LastAlloc < port then port else r.LastAlloc) = max r.LastAlloc port
      split
      · rename_i hlt
        exact (max_eq_right (le_of_lt hlt)).symm
      · rename_i hlt
        exact (max_eq_left (not_lt.1 hlt)).symm

/-- The entries after a returning `registryRemove`: all as before, or the entry
of one port replaced by its released form; `LastAlloc` is as before. -/
theorem registryRemove_ports (r r1 : Registry) (port : Int) (name : String)
    (t : PortType) (x : Option Nat) (h : registryRemove r port name t x = .ok r1) :
    r1.LastAlloc = r.LastAlloc ∧
    (r1.Ports = r.Ports ∨
      ∃ q, r1.Ports = fun k => if k = q then releasedEntry (r.Ports q) name x else r.Ports k) := by
  have hmu := registryRemove_had_lock r r1 port name t x h
  rcases registryRemove_ok r r1 port name t x hmu h with h1 | ⟨q, _, _, h1⟩
  · rw [h1]
    exact ⟨rfl, Or.inl rfl⟩
  · rw [h1]
    exact ⟨rfl, Or.inr ⟨q, rfl⟩⟩

/-! ## C14: Free entries have no owners and no session -/

theorem FreeClean_alloc (f : Int → Bool) (rf : Bool) (r r1 : Registry) (p : Int)
    (hc : FreeClean r) (h : registryAlloc f r rf = .ok (p, r1)) : FreeClean r1 := by
  obtain ⟨_, _, _, _, hcase⟩ := registryAlloc_ok f r r1 rf p h
  intro q hq
  rcases hcase with ⟨_, hp⟩ | ⟨_, _, _, _, _, hp⟩
  · rw [hp] at hq ⊢
    exact hc q hq
  · rw [hp] at hq ⊢
    by_cases hqp : q = p
    · simp [hqp] at hq
    · simp only [if_neg hqp] at hq ⊢
      exact hc q hq

theorem FreeClean_remove (r r1 : Registry) (port : Int) (name : String) (t : PortType)
    (x : Option Nat) (hc : FreeClean r) (h : registryRemove r port name t x = .ok r1) :
    FreeClean r1 := by
  obtain ⟨_, hcase⟩ := registryRemove_ports r r1 port name t x h
  intro k hk
  rcases hcase with hp | ⟨q, hp⟩
  · rw [hp] at hk ⊢
    exact hc k hk
  · rw [hp] at hk ⊢
    by_cases hkq : k = q
    · subst hkq
      simp only [if_true] at hk ⊢
      unfold releasedEntry at hk ⊢
      split
      · exact ⟨rfl, rfl⟩
      · rename_i hlen
        rw [if_neg hlen] at hk
        obtain ⟨c1, c2⟩ := hc k hk
        simp [c1, c2, deleteFromSlice, findPos]
    · simp only [if_neg hkq] at hk ⊢
      exact hc k hk

theorem FreeClean_bind (r r1 : Registry) (port : Int) (name : String) (t : PortType)
    (x : Option Nat) (ht : t ≠ GfPmapPortFree) (hc : FreeClean r)
    (h : registryBind r port name t x = .ok r1) : FreeClean r1 := by
  rcases registryBind_ports r r1 port name t x h with h1 | ⟨_, hp⟩
  · rw [h1]
    exact hc
  · intro q hq
    rw [hp] at hq ⊢
    by_cases hqp : q = port
    · simp only [hqp, if_true, boundEntry] at hq
      exact absurd hq ht
    · simp only [if_neg hqp] at hq ⊢
      exact hc q hq

theorem FreeClean_assign (f : Int → Bool) (r r1 : Registry) (oldport p : Int)
    (brickpath : String) (hc : FreeClean r)
    (h : AssignPort f r oldport brickpath = .ok (p, r1)) : FreeClean r1 := by
  unfold AssignPort at h
  by_cases ho : oldport ≠ 0
  · rw [if_pos ho] at h
    cases hrm : registryRemove r 0 brickpath GfPmapPortBrickserver none with
    | error e => simp [hrm, bind, Except.bind] at h
    | ok r0 =>
      simp only [hrm, bind, Except.bind] at h
      exact FreeClean_alloc f true r0 r1 p (FreeClean_remove _ _ _ _ _ _ hc hrm) h
  · rw [if_neg ho] at h
    exact FreeClean_alloc f true r r1 p hc h

/-- C14 fails for a bind that names the type Free: after
`registryBind(49152, "/bricks/b1", GfPmapPortFree, 1)` on an initialised
registry, which satisfies the predicate, port 49152 is Free and has an owner
and a session. -/
theorem freeClean_bind_free_counterexample :
    Initialized freshRegistry ∧ FreeClean freshRegistry ∧
    registryBind freshRegistry 49152 "/bricks/b1" GfPmapPortFree (some 1) =
      .ok freeBoundRegistry ∧
    (freeBoundRegistry.Ports 49152).Typ = GfPmapPortFree ∧
    (freeBoundRegistry.Ports 49152).Bricknames = ["/bricks/b1"] ∧
    (freeBoundRegistry.Ports 49152).Xprt = some 1 ∧
    ¬ FreeClean freeBoundRegistry := by
  refine ⟨Initialized_fresh, fun _ _ => ⟨rfl, rfl⟩, rfl, rfl, rfl, rfl, ?_⟩
  intro hc
  have h := (hc 49152 rfl).1
  simp [freeBoundRegistry] at h

/-- C14 (amended): the predicate "every entry whose state is Free has no owners
and no session" holds in every initialised registry and is preserved by every
returning allocation (`registryAlloc`, `AssignPort`), every returning release,
and every returning bind whose type is not Free, for all other arguments. -/
theorem freeClean_invariant :
    (∀ r, Initialized r → FreeClean r) ∧
    (∀ r r1, FreeClean r → Mutation (fun t => t ≠ GfPmapPortFree) r r1 → FreeClean r1) := by
  constructor
  · intro r hi p _
    exact ⟨(hi.2.2.2 p).2.1, (hi.2.2.2 p).2.2⟩
  · intro r r1 hc hstep
    cases hstep with
    | alloc f rf _ _ p h => exact FreeClean_alloc f rf r r1 p hc h
    | assign f _ _ oldport p brickpath h =>
      exact FreeClean_assign f r r1 oldport p brickpath hc h
    | bind _ _ port name t x ht h => exact FreeClean_bind r r1 port name t x ht hc h
    | remove _ _ port name t x h => exact FreeClean_remove r r1 port name t x hc h

theorem freeClean_invariant_witness :
    FreeClean freshRegistry ∧ FreeClean twiceBoundRegistry :=
  ⟨freeClean_invariant.1 freshRegistry Initialized_fresh,
   freeClean_invariant.2 _ twiceBoundRegistry
    (freeClean_invariant.2 freshRegistry _ (freeClean_invariant.1 freshRegistry Initialized_fresh)
      (Mutation.bind freshRegistry _ 49152 "/bricks/b1" GfPmapPortBrickserver (some 1)
        (by decide)
        (registryBind_inTable freshRegistry 49152 "/bricks/b1" GfPmapPortBrickserver (some 1)
          rfl (by decide) (by decide))))
    (Mutation.bind _ twiceBoundRegistry 49160 "/bricks/b1" GfPmapPortBrickserver (some 2)
      (by decide) (by rfl))⟩

/-! ## C15: owners and the states in use -/

theorem OwnedInUse_alloc (f : Int → Bool) (rf : Bool) (r r1 : Registry) (p : Int)
    (ho : OwnedInUse r) (h : registryAlloc f r rf = .ok (p, r1)) : OwnedInUse r1 := by
  obtain ⟨_, _, _, _, hcase⟩ := registryAlloc_ok f r r1 rf p h
  intro q hq
  rcases hcase with ⟨_, hp⟩ | ⟨_, _, _, _, _, hp⟩
  · rw [hp] at hq ⊢
    exact ho q hq
  · rw [hp] at hq ⊢
    by_cases hqp : q = p
    · simp only [hqp, if_true]
      exact Or.inl rfl
    · simp only [if_neg hqp] at hq ⊢
      exact ho q hq

theorem OwnedInUse_remove (r r1 : Registry) (port : Int) (name : String) (t : PortType)
    (x : Option Nat) (ho : OwnedInUse r) (h : registryRemove r port name t x = .ok r1) :
    OwnedInUse r1 := by
  obtain ⟨_, hcase⟩ := registryRemove_ports r r1 port name t x h
  intro k hk
  rcases hcase with hp | ⟨q, hp⟩
  · rw [hp] at hk ⊢
    exact ho k hk
  · rw [hp] at hk ⊢
    by_cases hkq : k = q
    · subst hkq
      simp only [if_true] at hk ⊢
      have hold := ho k (releasedEntry_names _ _ _ hk)
      unfold releasedEntry at hk ⊢
      by_cases hlen : (r.Ports k).Bricknames.length = 1
      · rw [if_pos hlen] at hk
        exact absurd rfl hk
      · rw [if_neg hlen]
        exact hold
    · simp only [if_neg hkq] at hk ⊢
      exact ho k hk

theorem OwnedInUse_bind (r r1 : Registry) (port : Int) (name : String) (t : PortType)
    (x : Option Nat) (ht : InUseType t) (ho : OwnedInUse r)
    (h : registryBind r port name t x = .ok r1) : OwnedInUse r1 := by
  rcases registryBind_ports r r1 port name t x h with h1 | ⟨_, hp⟩
  · rw [h1]
    exact ho
  · intro q hq
    rw [hp] at hq ⊢
    by_cases hqp : q = port
    · simp only [hqp, if_true, boundEntry]
      exact ht
    · simp only [if_neg hqp] at hq ⊢
      exact ho q hq

theorem OwnedInUse_assign (f : Int → Bool) (r r1 : Registry) (oldport p : Int)
    (brickpath : String) (ho : OwnedInUse r)
    (h : AssignPort f r oldport brickpath = .ok (p, r1)) : OwnedInUse r1 := by
  unfold AssignPort at h
  by_cases hold : oldport ≠ 0
  · rw [if_pos hold] at h
    cases hrm : registryRemove r 0 brickpath GfPmapPortBrickserver none with
    | error e => simp [hrm, bind, Except.bind] at h
    | ok r0 =>
      simp only [hrm, bind, Except.bind] at h
      exact OwnedInUse_alloc f true r0 r1 p (OwnedInUse_remove _ _ _ _ _ _ ho hrm) h
  · rw [if_neg hold] at h
    exact OwnedInUse_alloc f true r r1 p ho h

theorem ReachableWith_ownedInUse (r : Registry) (h : ReachableWith InUseType r) :
    OwnedInUse r := by
  induction h with
  | init r hi =>
    intro p hp
    exact absurd (hi.2.2.2 p).2.1 hp
  | step r r1 _ hstep ih =>
    cases hstep with
    | alloc f rf _ _ p h => exact OwnedInUse_alloc f rf r r1 p ih h
    | assign f _ _ oldport p brickpath h =>
      exact OwnedInUse_assign f r r1 oldport p brickpath ih h
    | bind _ _ port name t x ht h => exact OwnedInUse_bind r r1 port name t x ht ih h
    | remove _ _ port name t x h => exact OwnedInUse_remove r r1 port name t x ih h

theorem ReachableWith_twiceBound : ReachableWith InUseType twiceBoundRegistry :=
  ReachableWith.step _ twiceBoundRegistry
    (ReachableWith.step freshRegistry _ (ReachableWith.init _ Initialized_fresh)
      (Mutation.bind freshRegistry _ 49152 "/bricks/b1" GfPmapPortBrickserver (some 1)
        (Or.inr rfl)
        (registryBind_inTable freshRegistry 49152 "/bricks/b1" GfPmapPortBrickserver (some 1)
          rfl (by decide) (by decide))))
    (Mutation.bind _ twiceBoundRegistry 49160 "/bricks/b1" GfPmapPortBrickserver (some 2)
      (Or.inr rfl) (by rfl))

/-- C15 fails in both directions.  After `registryAlloc` on an initialised
registry port 49152 is Leased and has no owners; after
`registryBind(49152, "/bricks/b1", GfPmapPortNone, nil)` on an initialised
registry port 49152 is in state None and has an owner. -/
theorem owners_in_use_counterexample :
    (Reachable leasedFirstRegistry ∧
      (leasedFirstRegistry.Ports 49152).Typ = GfPmapPortLeased ∧
      (leasedFirstRegistry.Ports 49152).Bricknames = []) ∧
    (Reachable noneBoundRegistry ∧
      (noneBoundRegistry.Ports 49152).Typ = GfPmapPortNone ∧
      (noneBoundRegistry.Ports 49152).Bricknames ≠ []) := by
  refine ⟨⟨?_, rfl, rfl⟩, ⟨?_, rfl, by decide⟩⟩
  · exact Reachable.alloc (fun _ => true) true freshRegistry leasedFirstRegistry 49152
      (Reachable.init _ Initialized_fresh) (by rfl)
  · exact Reachable.bind freshRegistry noneBoundRegistry 49152 "/bricks/b1" GfPmapPortNone none
      (Reachable.init _ Initialized_fresh) (by rfl)

theorem deleteFromSlice_length (list : List String) (query : String) :
    list.length - 1 ≤ (deleteFromSlice list query).length := by
  unfold deleteFromSlice
  cases findPos query list with
  | none => exact Nat.sub_le _ _
  | some pos => simp [List.length_take, List.length_set]

theorem BrickOwned_alloc (f : Int → Bool) (rf : Bool) (r r1 : Registry) (p : Int)
    (hb : BrickOwned r) (h : registryAlloc f r rf = .ok (p, r1)) : BrickOwned r1 := by
  obtain ⟨_, _, _, _, hcase⟩ := registryAlloc_ok f r r1 rf p h
  intro q hq
  rcases hcase with ⟨_, hp⟩ | ⟨_, _, _, _, _, hp⟩
  · rw [hp] at hq ⊢
    exact hb q hq
  · rw [hp] at hq ⊢
    by_cases hqp : q = p
    · simp [hqp] at hq
    · simp only [if_neg hqp] at hq ⊢
      exact hb q hq

theorem BrickOwned_bind (r r1 : Registry) (port : Int) (name : String) (t : PortType)
    (x : Option Nat) (hb : BrickOwned r) (h : registryBind r port name t x = .ok r1) :
    BrickOwned r1 := by
  rcases registryBind_ports r r1 port name t x h with h1 | ⟨_, hp⟩
  · rw [h1]
    exact hb
  · intro q hq
    rw [hp] at hq ⊢
    by_cases hqp : q = port
    · simp [hqp, boundEntry]
    · simp only [if_neg hqp] at hq ⊢
      exact hb q hq

theorem BrickOwned_remove (r r1 : Registry) (port : Int) (name : String) (t : PortType)
    (x : Option Nat) (hb : BrickOwned r) (h : registryRemove r port name t x = .ok r1) :
    BrickOwned r1 := by
  obtain ⟨_, hcase⟩ := registryRemove_ports r r1 port name t x h
  intro k hk
  rcases hcase with hp | ⟨q, hp⟩
  · rw [hp] at hk ⊢
    exact hb k hk
  · rw [hp] at hk ⊢
    by_cases hkq : k = q
    · subst hkq
      simp only [if_true] at hk ⊢
      unfold releasedEntry at hk ⊢
      by_cases hlen : (r.Ports k).Bricknames.length = 1
      · rw [if_pos hlen] at hk
        cases hk
      · rw [if_neg hlen] at hk ⊢
        have hne : (r.Ports k).Bricknames ≠ [] := hb k hk
        have hpos : 0 < (r.Ports k).Bricknames.length := List.length_pos.2 hne
        have hdel := deleteFromSlice_length (r.Ports k).Bricknames name
        intro hnil
        simp only at hnil
        rw [hnil] at hdel
        simp only [List.length_nil] at hdel
        omega
    · simp only [if_neg hkq] at hk ⊢
      exact hb k hk

theorem BrickOwned_assign (f : Int → Bool) (r r1 : Registry) (oldport p : Int)
    (brickpath : String) (hb : BrickOwned r)
    (h : AssignPort f r oldport brickpath = .ok (p, r1)) : BrickOwned r1 := by
  unfold AssignPort at h
  by_cases hold : oldport ≠ 0
  · rw [if_pos hold] at h
    cases hrm : registryRemove r 0 brickpath GfPmapPortBrickserver none with
    | error e => simp [hrm, bind, Except.bind] at h
    | ok r0 =>
      simp only [hrm, bind, Except.bind] at h
      exact BrickOwned_alloc f true r0 r1 p (BrickOwned_remove _ _ _ _ _ _ hb hrm) h
  · rw [if_neg hold] at h
    exact BrickOwned_alloc f true r r1 p hb h

theorem Reachable_brickOwned (r : Registry) (h : Reachable r) : BrickOwned r := by
  induction h with
  | init r hi =>
    intro p hp
    rcases (hi.2.2.2 p).1 with h1 | h1
    · rw [h1] at hp
      cases hp
    · rw [h1] at hp
      cases hp
  | alloc f rf r r1 p _ h ih => exact BrickOwned_alloc f rf r r1 p ih h
  | assign f r r1 oldport p brickpath _ h ih =>
    exact BrickOwned_assign f r r1 oldport p brickpath ih h
  | bind r r1 port name t x _ h ih => exact BrickOwned_bind r r1 port name t x ih h
  | remove r r1 port name t x _ h ih => exact BrickOwned_remove r r1 port name t x ih h

/-- C15 (amended): in every registry state reachable from initialisation by
allocate, bind and release operations, and for every port: if the state of the
port is Brickserver then it has an owner.  If moreover every bind on the way
had type Leased or Brickserver, then a port that has an owner is in state
Leased or Brickserver, and a port in state Free, Foreign or None has no owners.
(Only "Leased implies an owner" is not claimed: a port that has been leased and
not yet bound has no owners.) -/
theorem owners_imply_in_use (r : Registry) (p : Int) :
    (Reachable r →
      (r.Ports p).Typ = GfPmapPortBrickserver → (r.Ports p).Bricknames ≠ []) ∧
    (ReachableWith InUseType r →
      ((r.Ports p).Bricknames ≠ [] →
        (r.Ports p).Typ = GfPmapPortLeased ∨ (r.Ports p).Typ = GfPmapPortBrickserver) ∧
      ((r.Ports p).Typ = GfPmapPortFree ∨ (r.Ports p).Typ = GfPmapPortForeign ∨
          (r.Ports p).Typ = GfPmapPortNone →
        (r.Ports p).Bricknames = [])) := by
  refine ⟨fun hr => Reachable_brickOwned r hr p, ?_⟩
  intro hr
  have ho := ReachableWith_ownedInUse r hr p
  refine ⟨ho, ?_⟩
  intro hty
  by_contra hne
  rcases ho hne with h1 | h1
  · rw [h1] at hty
    rcases hty with h | h | h <;> cases h
  · rw [h1] at hty
    rcases hty with h | h | h <;> cases h

theorem owners_imply_in_use_witness :
    (twiceBoundRegistry.Ports 49152).Bricknames ≠ [] ∧
    ((twiceBoundRegistry.Ports 49152).Typ = GfPmapPortLeased ∨
      (twiceBoundRegistry.Ports 49152).Typ = GfPmapPortBrickserver) ∧
    (twiceBoundRegistry.Ports 49153).Bricknames = [] :=
  ⟨(owners_imply_in_use twiceBoundRegistry 49152).1 Reachable_twiceBound rfl,
   ((owners_imply_in_use twiceBoundRegistry 49152).2 ReachableWith_twiceBound).1 (by decide),
   ((owners_imply_in_use twiceBoundRegistry 49153).2 ReachableWith_twiceBound).2 (Or.inl rfl)⟩

/-! ## C16: the high-water mark -/

theorem RLock_ok (r r0 : Registry) (h : r.RLock = .ok r0) :
    r0.LastAlloc = r.LastAlloc ∧ r0.BasePort = r.BasePort ∧ r0.Ports = r.Ports := by
  unfold Registry.RLock at h
  split at h
  · injection h with h
    rw [← h]
    exact ⟨rfl, rfl, rfl⟩
  · cases h

theorem registrySearchByPort_lastAlloc (r r1 : Registry) (port : Int) (s : String)
    (h : registrySearchByPort r port = .ok (s, r1)) : r1.LastAlloc = r.LastAlloc := by
  unfold registrySearchByPort at h
  by_cases hgt : port > gfPortMax
  · rw [if_pos hgt] at h
    injection h with h
    injection h with _ h2
    rw [← h2]
  · rw [if_neg hgt] at h
    cases hl : r.RLock with
    | error e => simp [hl, bind, Except.bind] at h
    | ok r0 =>
      simp only [hl, bind, Except.bind] at h
      cases hp : r0.portAt port with
      | error e => simp [hp] at h
      | ok e =>
        simp only [hp] at h
        have hr1 : r1 = r0.RUnlock := by
          split at h
          · injection h with h
            injection h with _ h2
            exact h2.symm
          · injection h with h
            injection h with _ h2
            exact h2.symm
        rw [hr1]
        exact (RLock_ok r r0 hl).1

theorem registrySearch_lastAlloc (r r1 : Registry) (name : String) (t : PortType)
    (port : Int) (h : registrySearch r name t = .ok (port, r1)) :
    r1.LastAlloc = r.LastAlloc := by
  unfold registrySearch at h
  cases hl : r.RLock with
  | error e => simp [hl, bind, Except.bind] at h
  | ok r0 =>
    simp only [hl, bind, Except.bind] at h
    cases hs : registrySearchLoop r0 name t (r0.LastAlloc + 1 - r0.BasePort).toNat
        r0.LastAlloc with
    | error e => simp [hs] at h
    | ok q =>
      simp only [hs] at h
      injection h with h
      injection h with _ h2
      rw [← h2]
      exact (RLock_ok r r0 hl).1

theorem AssignPort_lastAlloc (f : Int → Bool) (r r1 : Registry) (oldport p : Int)
    (brickpath : String) (h : AssignPort f r oldport brickpath = .ok (p, r1)) :
    r.LastAlloc ≤ r1.LastAlloc := by
  unfold AssignPort at h
  by_cases hold : oldport ≠ 0
  · rw [if_pos hold] at h
    cases hrm : registryRemove r 0 brickpath GfPmapPortBrickserver none with
    | error e => simp [hrm, bind, Except.bind] at h
    | ok r0 =>
      simp only [hrm, bind, Except.bind] at h
      have h1 := (registryRemove_ports _ _ _ _ _ _ hrm).1
      have h2 := (registryAlloc_ok f r0 r1 true p h).2.2.2.1
      rw [h2, h1]
      exact le_max_left _ _
  · rw [if_neg hold] at h
    rw [(registryAlloc_ok f r r1 true p h).2.2.2.1]
    exact le_max_left _ _

/-- C16: `LastAlloc` never decreases.  For every registry state and every
returning allocation, bind, release or lookup, with any arguments, the value
after the call is at least the value before; a lookup and a release leave it
exactly as it was. -/
theorem lastAlloc_monotone :
    (∀ r r1, Mutation (fun _ => True) r r1 ∨ Lookup r r1 → r.LastAlloc ≤ r1.LastAlloc) ∧
    (∀ r r1, Lookup r r1 → r1.LastAlloc = r.LastAlloc) ∧
    (∀ r r1 port name t x,
      registryRemove r port name t x = .ok r1 → r1.LastAlloc = r.LastAlloc) := by
  have hlook : ∀ r r1, Lookup r r1 → r1.LastAlloc = r.LastAlloc := by
    intro r r1 hl
    match hl with
    | .byPort _ _ port s h => exact registrySearchByPort_lastAlloc _ _ port s h
    | .byName _ _ name t port h => exact registrySearch_lastAlloc _ _ name t port h
    | .byXprt _ _ _ _ _ => rfl
  refine ⟨?_, hlook, ?_⟩
  · intro r r1 hstep
    rcases hstep with hm | hl
    · cases hm with
      | alloc f rf _ _ p h =>
        rw [(registryAlloc_ok f r r1 rf p h).2.2.2.1]
        exact le_max_left _ _
      | assign f _ _ oldport p brickpath h =>
        exact AssignPort_lastAlloc f r r1 oldport p brickpath h
      | bind _ _ port name t x _ h =>
        rcases registryBind_ports r r1 port name t x h with h1 | ⟨h1, _⟩
        · rw [h1]
        · rw [h1]
          exact le_max_left _ _
      | remove _ _ port name t x h =>
        exact le_of_eq (registryRemove_ports r r1 port name t x h).1.symm
    · exact le_of_eq (hlook r r1 hl).symm
  · intro r r1 port name t x h
    exact (registryRemove_ports r r1 port name t x h).1

theorem lastAlloc_monotone_witness :
    freshRegistry.LastAlloc ≤ leasedFirstRegistry.LastAlloc ∧
    twiceBoundRegistry.LastAlloc = twiceBoundRegistry.LastAlloc ∧
    (∃ r1, registryRemove twiceBoundRegistry 49160 "/bricks/b1" GfPmapPortBrickserver none =
      .ok r1 ∧ r1.LastAlloc = twiceBoundRegistry.LastAlloc) :=
  have hrm := registryRemove_explicit twiceBoundRegistry 49160 "/bricks/b1"
    GfPmapPortBrickserver none rfl (by decide) (by decide)
  ⟨lastAlloc_monotone.1 freshRegistry leasedFirstRegistry
      (Or.inl (Mutation.alloc (fun _ => true) true freshRegistry leasedFirstRegistry 49152
        (by rfl))),
   lastAlloc_monotone.2.1 twiceBoundRegistry twiceBoundRegistry
      (Lookup.byName twiceBoundRegistry twiceBoundRegistry "/bricks/b1"
        GfPmapPortBrickserver 49160 (by rfl)),
   ⟨_, hrm, lastAlloc_monotone.2.2 twiceBoundRegistry _ 49160 "/bricks/b1"
      GfPmapPortBrickserver none hrm⟩⟩

/-- A release of the highest port ever bound leaves `LastAlloc` where it was. -/
theorem lastAlloc_after_release_example :
    ∃ r1, registryRemove twiceBoundRegistry 49160 "/bricks/b1" GfPmapPortBrickserver none =
        .ok r1 ∧ (r1.Ports 49160).Typ = GfPmapPortFree ∧ r1.LastAlloc = 49160 :=
  ⟨_, rfl, rfl, rfl⟩

end pmap
